import Mathlib

/-
Formal model of the ImageHide core: bit-level codec, rotation cipher,
cryptographic payload packing, and the LSB steganography engine.

Modelling conventions:
- Python `bytes` values are `List Nat` whose elements are below 256
  (stated as hypotheses where a theorem needs it).
- Python `str` values are lists of Unicode code points (`List Nat`),
  matching CPython's sequence-of-code-points string model.
- Machine integers are `Nat` / `Int` with explicit wrapping where the
  source wraps; Python's `%` on ints with a positive modulus agrees with
  `Int.emod`.
- Fallible code returns `Except PyError`; an uncaught Python exception
  (such as the `NameError` in `_channels_to_image`) is an `error` value.
- Randomness (`os.urandom`) and the external `cryptography` library are
  modelled by explicit parameters (see `CryptoLib`).
-/

namespace ImageHide

/-- Code points of a string literal, used to transcribe Python string
constants such as the sentinel tags. -/
def strCps (s : String) : List Nat := s.data.map Char.toNat

/-- Errors raised by the modelled Python code.  `capacity`, `format` and
`decryption` mirror the `CapacityError`, `FormatError` and
`DecryptionError` classes of `src/core/errors.py`; `valueError` mirrors
Python's built-in `ValueError`; `nameError` and `stopIteration` model the
built-in exceptions that escape `_channels_to_image`; `structError` models
`struct.error` on a length that does not fit in an unsigned 32-bit field;
`unicodeDecodeError` models a failing `bytes.decode("utf-8")`. -/
inductive PyError where
  | capacity (requiredBits availableBits : Nat)
  | format (msg : String)
  | decryption
  | valueError (msg : String)
  | nameError
  | stopIteration
  | structError
  | unicodeDecodeError
  deriving DecidableEq, Repr

/-- Model of `encoding.bytes_to_bits`: expand each byte into 8 bits,
most-significant bit first (the Python loop runs `i` from 7 down to 0 and
appends `(byte >> i) & 1`). -/
def bytes_to_bits (data : List Nat) : List Nat :=
  data.flatMap (fun byte => (List.range 8).map (fun i => (byte >>> (7 - i)) &&& 1))

/-- Accumulator loop of `encoding.bits_to_bytes` for one 8-bit window:
`byte_value = (byte_value << 1) | bit`, starting from 0. -/
def packByteMSB (bits : List Nat) : Nat :=
  bits.foldl (fun acc bit => (acc <<< 1) ||| bit) 0

/-- Model of `encoding.bits_to_bytes`: pack bits 8 at a time (MSB first);
a trailing group of fewer than 8 bits is silently dropped. -/
def bits_to_bytes : List Nat → List Nat
  | b0 :: b1 :: b2 :: b3 :: b4 :: b5 :: b6 :: b7 :: rest =>
      packByteMSB [b0, b1, b2, b3, b4, b5, b6, b7] :: bits_to_bytes rest
  | _ => []

/-- The `rotated = (ord(char) - base + shift) % 26; if rotated < 0: rotated += 26`
sequence from `encoding.rotate_letters` (the `< 0` branch is dead code,
since Python's `%` with modulus 26 is never negative). -/
def pyMod26 (x : Int) : Int :=
  if x % 26 < 0 then x % 26 + 26 else x % 26

/-- Per-character body of the loop in `encoding.rotate_letters`. -/
def rotChar (shift : Int) (c : Nat) : Nat :=
  if 97 ≤ c ∧ c ≤ 122 then
    (pyMod26 ((c : Int) - 97 + shift)).toNat + 97
  else if 65 ≤ c ∧ c ≤ 90 then
    (pyMod26 ((c : Int) - 65 + shift)).toNat + 65
  else c

/-- Model of `encoding.rotate_letters` over code points. -/
def rotate_letters (text : List Nat) (shift : Int) : List Nat :=
  text.map (rotChar shift)

/-- A code point is an ASCII letter `a`-`z` or `A`-`Z`. -/
def isAsciiLetter (c : Nat) : Prop :=
  (97 ≤ c ∧ c ≤ 122) ∨ (65 ≤ c ∧ c ≤ 90)

instance (c : Nat) : Decidable (isAsciiLetter c) := by
  unfold isAsciiLetter; infer_instance

lemma pyMod26_eq (x : Int) : pyMod26 x = x % 26 := by
  have h := Int.emod_nonneg x (by norm_num : (26 : Int) ≠ 0)
  unfold pyMod26
  rw [if_neg (by omega)]

lemma rotChar_rotChar_neg (s : Int) (c : Nat) :
    rotChar (-s) (rotChar s c) = c := by
  have e1 := pyMod26_eq ((c : Int) - 97 + s)
  have e2 := pyMod26_eq ((c : Int) - 65 + s)
  have h1 := Int.emod_nonneg ((c : Int) - 97 + s) (by norm_num : (26 : Int) ≠ 0)
  have h2 := Int.emod_lt_of_pos ((c : Int) - 97 + s) (by norm_num : (0 : Int) < 26)
  have h3 := Int.emod_nonneg ((c : Int) - 65 + s) (by norm_num : (26 : Int) ≠ 0)
  have h4 := Int.emod_lt_of_pos ((c : Int) - 65 + s) (by norm_num : (0 : Int) < 26)
  by_cases hl : 97 ≤ c ∧ c ≤ 122
  · have hin : rotChar s c = (((c : Int) - 97 + s) % 26).toNat + 97 := by
      rw [rotChar, if_pos hl, e1]
    rw [hin, rotChar, if_pos (by omega), pyMod26_eq]
    omega
  · by_cases hu : 65 ≤ c ∧ c ≤ 90
    · have hin : rotChar s c = (((c : Int) - 65 + s) % 26).toNat + 65 := by
        rw [rotChar, if_neg hl, if_pos hu, e2]
      rw [hin, rotChar, if_neg (by omega), if_pos (by omega), pyMod26_eq]
      omega
    · have hin : rotChar s c = c := by rw [rotChar, if_neg hl, if_neg hu]
      rw [hin, rotChar, if_neg hl, if_neg hu]

lemma rotChar_of_not_letter (s : Int) (c : Nat) (h : ¬ isAsciiLetter c) :
    rotChar s c = c := by
  unfold isAsciiLetter at h
  rw [rotChar, if_neg (by tauto), if_neg (by tauto)]

lemma rotate_letters_inv (t : List Nat) (s : Int) :
    rotate_letters (rotate_letters t s) (-s) = t := by
  unfold rotate_letters
  rw [List.map_map]
  have h : (rotChar (-s) ∘ rotChar s) = id := by
    funext c; exact rotChar_rotChar_neg s c
  rw [h, List.map_id]

/-- C8: rotating by `s` and then by `-s` is the identity on every string,
and every non-ASCII-letter code point is a fixed point of the rotation for
any shift. -/
theorem C8_rotation_identity (t : List Nat) (s : Int) :
    rotate_letters (rotate_letters t s) (-s) = t ∧
    (∀ u : List Nat, (∀ c ∈ u, ¬ isAsciiLetter c) → rotate_letters u s = u) := by
  constructor
  · exact rotate_letters_inv t s
  · intro u hu
    unfold rotate_letters
    conv_rhs => rw [← List.map_id u]
    exact List.map_congr_left (fun c hc => rotChar_of_not_letter s c (hu c hc))

/-- Closed witness for C8 on a concrete string with accents, digits and
punctuation. -/
theorem C8_rotation_identity_witness :
    rotate_letters (rotate_letters (strCps "Hola, João 123!") 9) (-9) =
      strCps "Hola, João 123!" ∧
    (∀ u : List Nat, (∀ c ∈ u, ¬ isAsciiLetter c) →
      rotate_letters u 9 = u) :=
  C8_rotation_identity (strCps "Hola, João 123!") 9

lemma bytes_to_bits_cons (x : Nat) (b : List Nat) :
    bytes_to_bits (x :: b) =
      (x >>> 7 &&& 1) :: (x >>> 6 &&& 1) :: (x >>> 5 &&& 1) :: (x >>> 4 &&& 1) ::
      (x >>> 3 &&& 1) :: (x >>> 2 &&& 1) :: (x >>> 1 &&& 1) :: (x >>> 0 &&& 1) ::
      bytes_to_bits b := rfl

lemma shiftRight_and_one (y k : Nat) : (y >>> k) &&& 1 = y / 2 ^ k % 2 := by
  rw [Nat.and_one_is_mod, Nat.shiftRight_eq_div_pow]

lemma or_shift_bit (a : Nat) (b : Nat) (hb : b < 2) :
    (a <<< 1) ||| b = 2 * a + b := by
  have h : a <<< 1 = 2 ^ 1 * a := by
    rw [Nat.shiftLeft_eq, Nat.mul_comm, pow_one]
  rw [h, ← Nat.mul_add_lt_is_or (by omega : b < 2 ^ 1) a]

lemma and_one_lt (y : Nat) : y &&& 1 < 2 := by
  have := Nat.and_le_right (n := y) (m := 1)
  omega

set_option maxHeartbeats 1000000 in
lemma packByteMSB_eight (x : Nat) (hx : x < 256) :
    packByteMSB
      [(x >>> 7 &&& 1), (x >>> 6 &&& 1), (x >>> 5 &&& 1), (x >>> 4 &&& 1),
       (x >>> 3 &&& 1), (x >>> 2 &&& 1), (x >>> 1 &&& 1), (x >>> 0 &&& 1)] = x := by
  simp only [packByteMSB, List.foldl]
  rw [or_shift_bit _ _ (and_one_lt _), or_shift_bit _ _ (and_one_lt _),
      or_shift_bit _ _ (and_one_lt _), or_shift_bit _ _ (and_one_lt _),
      or_shift_bit _ _ (and_one_lt _), or_shift_bit _ _ (and_one_lt _),
      or_shift_bit _ _ (and_one_lt _), or_shift_bit _ _ (and_one_lt _)]
  simp only [shiftRight_and_one]
  omega

lemma bits_to_bytes_bytes_to_bits (b : List Nat) (hb : ∀ x ∈ b, x < 256) :
    bits_to_bytes (bytes_to_bits b) = b := by
  induction b with
  | nil => rfl
  | cons x b ih =>
    rw [bytes_to_bits_cons]
    show packByteMSB _ :: bits_to_bytes (bytes_to_bits b) = x :: b
    rw [packByteMSB_eight x (hb x (by simp)), ih (fun y hy => hb y (by simp [hy]))]

lemma bytes_to_bits_length (b : List Nat) :
    (bytes_to_bits b).length = 8 * b.length := by
  induction b with
  | nil => rfl
  | cons x b ih => rw [bytes_to_bits_cons]; simp only [List.length_cons, ih]; omega

/-- C9: for every byte sequence `b` (all values below 256, as Python's
`bytes` guarantees), packing the expansion gives back `b` exactly, and the
expansion emits exactly 8 bits per byte, so its length is a multiple
of 8. -/
theorem C9_bit_codec_roundtrip (b : List Nat) (hb : ∀ x ∈ b, x < 256) :
    bits_to_bytes (bytes_to_bits b) = b ∧
    (bytes_to_bits b).length = 8 * b.length :=
  ⟨bits_to_bytes_bytes_to_bits b hb, bytes_to_bits_length b⟩

/-- Closed witness for C9 on a concrete byte sequence. -/
theorem C9_bit_codec_roundtrip_witness :
    bits_to_bytes (bytes_to_bits [0, 7, 128, 255, 170]) = [0, 7, 128, 255, 170] ∧
    (bytes_to_bits [0, 7, 128, 255, 170]).length = 8 * 5 :=
  C9_bit_codec_roundtrip [0, 7, 128, 255, 170] (by decide)

/-- Modelled from the spec: Python's built-in UTF-8 encoder used by
`str.encode("utf-8")` inside `encoding.text_to_bytes` (the codec itself
lives in the CPython runtime, not in this repository).  Encodes one code
point; the theorems' hypotheses restrict inputs to valid non-surrogate
code points, on which Python's encoder is total. -/
def utf8EncodeChar (c : Nat) : List Nat :=
  if c < 128 then [c]
  else if c < 2048 then [192 + c / 64, 128 + c % 64]
  else if c < 65536 then [224 + c / 4096, 128 + c / 64 % 64, 128 + c % 64]
  else [240 + c / 262144, 128 + c / 4096 % 64, 128 + c / 64 % 64, 128 + c % 64]

/-- UTF-8 encoding of a sequence of code points. -/
def utf8Encode (text : List Nat) : List Nat := text.flatMap utf8EncodeChar

/-- Model of `encoding.text_to_bytes` with its default "utf-8" encoding. -/
def text_to_bytes (text : List Nat) : List Nat := utf8Encode text

/-- A UTF-8 continuation byte: high bits `10`. -/
def utf8Cont (b : Nat) : Bool := 128 ≤ b && b < 192

/-- Code point assembled from a 2-byte UTF-8 sequence. -/
def utf8Val2 (b b1 : Nat) : Nat := (b - 192) * 64 + (b1 - 128)

/-- Code point assembled from a 3-byte UTF-8 sequence. -/
def utf8Val3 (b b1 b2 : Nat) : Nat := (b - 224) * 4096 + (b1 - 128) * 64 + (b2 - 128)

/-- Code point assembled from a 4-byte UTF-8 sequence. -/
def utf8Val4 (b b1 b2 b3 : Nat) : Nat :=
  (b - 240) * 262144 + (b1 - 128) * 4096 + (b2 - 128) * 64 + (b3 - 128)

/-- Validity of a decoded 3-byte value: not overlong, not a surrogate. -/
def utf8Ok3 (v : Nat) : Bool := 2048 ≤ v && (v < 55296 || 57344 ≤ v)

/-- Validity of a decoded 4-byte value: not overlong, within Unicode. -/
def utf8Ok4 (v : Nat) : Bool := 65536 ≤ v && v < 1114112

mutual

/-- Modelled from the spec: Python's strict UTF-8 decoder used by
`bytes.decode("utf-8")` inside `encoding.bytes_to_text`; rejects
malformed leads, truncated sequences, overlong forms, surrogates and
out-of-range values, as CPython's strict codec does. -/
def utf8Decode : List Nat → Option (List Nat)
  | [] => some []
  | b :: rest =>
    if b < 128 then (utf8Decode rest).map (b :: ·)
    else if b < 194 then none
    else if b < 224 then utf8Dec2 b rest
    else if b < 240 then utf8Dec3 b rest
    else if b < 245 then utf8Dec4 b rest
    else none
  termination_by l => l.length

/-- Continuation of the decoder after a 2-byte lead. -/
def utf8Dec2 : Nat → List Nat → Option (List Nat)
  | b, b1 :: rest =>
    if utf8Cont b1 then (utf8Decode rest).map (utf8Val2 b b1 :: ·) else none
  | _, [] => none
  termination_by _ l => l.length

/-- Continuation of the decoder after a 3-byte lead. -/
def utf8Dec3 : Nat → List Nat → Option (List Nat)
  | b, b1 :: b2 :: rest =>
    if utf8Cont b1 && utf8Cont b2 && utf8Ok3 (utf8Val3 b b1 b2) then
      (utf8Decode rest).map (utf8Val3 b b1 b2 :: ·)
    else none
  | _, _ => none
  termination_by _ l => l.length

/-- Continuation of the decoder after a 4-byte lead. -/
def utf8Dec4 : Nat → List Nat → Option (List Nat)
  | b, b1 :: b2 :: b3 :: rest =>
    if utf8Cont b1 && utf8Cont b2 && utf8Cont b3 && utf8Ok4 (utf8Val4 b b1 b2 b3) then
      (utf8Decode rest).map (utf8Val4 b b1 b2 b3 :: ·)
    else none
  | _, _ => none
  termination_by _ l => l.length

end

/-- Model of `encoding.bytes_to_text` with its default "utf-8" encoding;
a decode failure is Python's `UnicodeDecodeError`. -/
def bytes_to_text (data : List Nat) : Except PyError (List Nat) :=
  match utf8Decode data with
  | some t => .ok t
  | none => .error .unicodeDecodeError

/-- Constant `SALT_LENGTH` from `crypto.py`. -/
def SALT_LENGTH : Nat := 16

/-- Constant `NONCE_LENGTH` from `crypto.py`. -/
def NONCE_LENGTH : Nat := 12

/-- Constant `TAG_LENGTH` from `crypto.py`. -/
def TAG_LENGTH : Nat := 16

/-- Modelled from the spec: the primitives of the external `cryptography`
library (PBKDF2-HMAC-SHA256 key derivation and AES-GCM encryption and
decryption) are not code of this repository.  They are modelled as an
abstract deterministic interface; `aesGcmDecrypt` returns `none` exactly
when the library raises `InvalidTag`.  The theorems that need the
library's documented behaviour (decrypting a fresh encryption with the
same key and nonce yields the plaintext; ciphertext length equals
plaintext length) take it as hypotheses. -/
structure CryptoLib where
  pbkdf2Sha256 : List Nat → List Nat → Nat → Nat → List Nat
  aesGcmEncrypt : List Nat → List Nat → List Nat → List Nat × List Nat
  aesGcmDecrypt : List Nat → List Nat → List Nat → List Nat → Option (List Nat)

/-- Model of the optional `kdf_params` dictionary: the two recognized
keys, each possibly absent. -/
structure KdfParams where
  iterations : Option Nat := none
  keyLength : Option Nat := none

/-- Model of `crypto.derive_key_from_password`.  `os.urandom(SALT_LENGTH)`
is modelled by the explicit `urandomSalt` argument, consumed only when
`salt` is absent, exactly as in the source. -/
def derive_key_from_password (lib : CryptoLib) (password : List Nat)
    (urandomSalt : List Nat) (salt : Option (List Nat))
    (kdfParams : Option KdfParams) : List Nat × List Nat :=
  let iterations := match kdfParams with
    | none => 100000
    | some ps => ps.iterations.getD 100000
  let keyLength := match kdfParams with
    | none => 32
    | some ps => ps.keyLength.getD 32
  let saltUsed := match salt with
    | none => urandomSalt
    | some s => s
  (lib.pbkdf2Sha256 (text_to_bytes password) saltUsed iterations keyLength, saltUsed)

/-- Model of `crypto.encrypt_with_aes_gcm`; `os.urandom(NONCE_LENGTH)` is
the explicit `urandomNonce` argument. -/
def encrypt_with_aes_gcm (lib : CryptoLib) (plaintext key urandomNonce : List Nat) :
    List Nat × List Nat × List Nat :=
  ((lib.aesGcmEncrypt plaintext key urandomNonce).1, urandomNonce,
   (lib.aesGcmEncrypt plaintext key urandomNonce).2)

/-- Model of `crypto.decrypt_with_aes_gcm`: an `InvalidTag` from the
library is re-raised as `DecryptionError`. -/
def decrypt_with_aes_gcm (lib : CryptoLib) (ciphertext key nonce tag : List Nat) :
    Except PyError (List Nat) :=
  match lib.aesGcmDecrypt ciphertext key nonce tag with
  | some pt => .ok pt
  | none => .error .decryption

/-- Model of `crypto.pack_encrypted_payload`. -/
def pack_encrypted_payload (salt nonce tag ciphertext : List Nat) :
    Except PyError (List Nat) :=
  if salt.length ≠ SALT_LENGTH then .error (.valueError "Salt must be 16 bytes")
  else if nonce.length ≠ NONCE_LENGTH then .error (.valueError "Nonce must be 12 bytes")
  else if tag.length ≠ TAG_LENGTH then .error (.valueError "Tag must be 16 bytes")
  else .ok (salt ++ nonce ++ tag ++ ciphertext)

/-- Model of `crypto.unpack_encrypted_payload`; a Python slice `p[a:b]`
is `(p.take b).drop a`, and `p[a:]` is `p.drop a`. -/
def unpack_encrypted_payload (payload : List Nat) :
    Except PyError (List Nat × List Nat × List Nat × List Nat) :=
  if payload.length < SALT_LENGTH + NONCE_LENGTH + TAG_LENGTH then
    .error (.valueError "Payload too short to contain required components")
  else
    .ok ((payload.take 16).drop 0, (payload.take 28).drop 16,
         (payload.take 44).drop 28, payload.drop 44)

lemma unpack_of_long (p : List Nat) (hp : 44 ≤ p.length) :
    unpack_encrypted_payload p =
      .ok (p.take 16, (p.drop 16).take 12, (p.drop 28).take 16, p.drop 44) := by
  unfold unpack_encrypted_payload
  rw [if_neg (by simp [SALT_LENGTH, NONCE_LENGTH, TAG_LENGTH]; omega)]
  rw [List.drop_zero, List.drop_take, List.drop_take]

/-- C7: packing valid-length components and unpacking gives them back;
`pack_encrypted_payload` rejects any wrong-length fixed component with a
`ValueError`; `unpack_encrypted_payload` rejects every payload shorter
than 44 bytes and otherwise slices deterministically at offsets 0:16,
16:28, 28:44, 44:end. -/
theorem C7_pack_unpack_roundtrip (salt nonce tag ct : List Nat)
    (hs : salt.length = 16) (hn : nonce.length = 12) (ht : tag.length = 16) :
    (pack_encrypted_payload salt nonce tag ct = .ok (salt ++ nonce ++ tag ++ ct) ∧
     unpack_encrypted_payload (salt ++ nonce ++ tag ++ ct) = .ok (salt, nonce, tag, ct)) ∧
    (∀ s' n' t' c' : List Nat,
       (s'.length ≠ 16 ∨ n'.length ≠ 12 ∨ t'.length ≠ 16) →
       ∃ m, pack_encrypted_payload s' n' t' c' = .error (.valueError m)) ∧
    (∀ p : List Nat, p.length < 44 →
       ∃ m, unpack_encrypted_payload p = .error (.valueError m)) ∧
    (∀ p : List Nat, 44 ≤ p.length →
       unpack_encrypted_payload p =
         .ok (p.take 16, (p.drop 16).take 12, (p.drop 28).take 16, p.drop 44)) := by
  have hA : (salt ++ nonce).length = 28 := by simp [hs, hn]
  have hB : (salt ++ nonce ++ tag).length = 44 := by simp [hs, hn, ht]
  refine ⟨⟨?_, ?_⟩, ?_, ?_, fun p hp => unpack_of_long p hp⟩
  · unfold pack_encrypted_payload
    rw [if_neg (by simp [SALT_LENGTH, hs]), if_neg (by simp [NONCE_LENGTH, hn]),
        if_neg (by simp [TAG_LENGTH, ht])]
  · rw [unpack_of_long _ (by simp [hs, hn, ht]; omega)]
    have e1 : (salt ++ nonce ++ tag ++ ct).take 16 = salt := by
      rw [List.append_assoc, List.append_assoc, List.take_left' hs]
    have e2 : ((salt ++ nonce ++ tag ++ ct).drop 16).take 12 = nonce := by
      rw [List.append_assoc (salt ++ nonce), List.append_assoc salt nonce,
          List.drop_left' hs, List.take_left' hn]
    have e3 : ((salt ++ nonce ++ tag ++ ct).drop 28).take 16 = tag := by
      rw [List.append_assoc (salt ++ nonce), List.drop_left' hA, List.take_left' ht]
    have e4 : (salt ++ nonce ++ tag ++ ct).drop 44 = ct := List.drop_left' hB
    rw [e1, e2, e3, e4]
  · intro s' n' t' c' hbad
    unfold pack_encrypted_payload
    split_ifs with h1 h2 h3
    · exact ⟨_, rfl⟩
    · exact ⟨_, rfl⟩
    · exact ⟨_, rfl⟩
    · exfalso
      simp [SALT_LENGTH, NONCE_LENGTH, TAG_LENGTH] at h1 h2 h3
      tauto
  · intro p hp
    unfold unpack_encrypted_payload
    rw [if_pos (by simp [SALT_LENGTH, NONCE_LENGTH, TAG_LENGTH]; omega)]
    exact ⟨_, rfl⟩

/-- Closed witness for C7 with concrete 16/12/16-byte components and a
2-byte ciphertext. -/
theorem C7_pack_unpack_roundtrip_witness :
    (pack_encrypted_payload (List.replicate 16 5) (List.replicate 12 6)
        (List.replicate 16 7) [8, 9] =
      .ok (List.replicate 16 5 ++ List.replicate 12 6 ++ List.replicate 16 7 ++ [8, 9]) ∧
     unpack_encrypted_payload
        (List.replicate 16 5 ++ List.replicate 12 6 ++ List.replicate 16 7 ++ [8, 9]) =
      .ok (List.replicate 16 5, List.replicate 12 6, List.replicate 16 7, [8, 9])) ∧
    (∀ s' n' t' c' : List Nat,
       (s'.length ≠ 16 ∨ n'.length ≠ 12 ∨ t'.length ≠ 16) →
       ∃ m, pack_encrypted_payload s' n' t' c' = .error (.valueError m)) ∧
    (∀ p : List Nat, p.length < 44 →
       ∃ m, unpack_encrypted_payload p = .error (.valueError m)) ∧
    (∀ p : List Nat, 44 ≤ p.length →
       unpack_encrypted_payload p =
         .ok (p.take 16, (p.drop 16).take 12, (p.drop 28).take 16, p.drop 44)) :=
  C7_pack_unpack_roundtrip (List.replicate 16 5) (List.replicate 12 6)
    (List.replicate 16 7) [8, 9] (by simp) (by simp) (by simp)

/-- Constant `START_TAG` from `steganography.py`, as code points. -/
def START_TAG : List Nat := strCps "<start_msg>"

/-- Constant `END_TAG` from `steganography.py`, as code points. -/
def END_TAG : List Nat := strCps "<end_msg>"

/-- Model of `struct.pack(">I", n)` for `n` below 2^32: 4 bytes,
big-endian. -/
def packUInt32BE (n : Nat) : List Nat :=
  [n / 16777216 % 256, n / 65536 % 256, n / 256 % 256, n % 256]

/-- Model of `struct.unpack(">I", bs)[0]` on a 4-byte sequence. -/
def beUInt32 (bs : List Nat) : Nat :=
  bs.foldl (fun acc b => acc * 256 + b) 0

/-- PIL image modes the engine distinguishes: grayscale `L`, `RGB`, and
`RGBA` (the modes exercised by the pipeline; `steganography.py` treats
any non-`L`, non-`RGBA` colour mode like `RGB`). -/
inductive Mode where
  | L
  | RGB
  | RGBA
  deriving DecidableEq, Repr

/-- Channel count per pixel for a mode. -/
def Mode.numChannels : Mode → Nat
  | .L => 1
  | .RGB => 3
  | .RGBA => 4

/-- A PIL image: size, mode, and the pixel grid flattened in row-major
order (`y` ascending, then `x` ascending), each pixel a list of channel
byte values (a single value for `L`). -/
structure Img where
  width : Nat
  height : Nat
  mode : Mode
  pixels : List (List Nat)
  deriving DecidableEq, Repr

/-- Well-formedness of an image: the pixel list covers the full grid and
each pixel carries the mode's channels as bytes. -/
def Img.wf (img : Img) : Prop :=
  img.pixels.length = img.width * img.height ∧
  ∀ p ∈ img.pixels, p.length = img.mode.numChannels ∧ ∀ v ∈ p, v < 256

instance (img : Img) : Decidable img.wf := by
  unfold Img.wf; infer_instance

/-- Channels yielded for one pixel by `_iter_channel_bytes`: a grayscale
pixel is yielded whole; otherwise channel `i` is yielded when
`include_alpha or (mode != "RGBA" and mode != "LA") or i < len(pixel)-1`. -/
def pixelChannels (mode : Mode) (includeAlpha : Bool) (p : List Nat) : List Nat :=
  match mode with
  | .L => p
  | _ =>
    (p.enum.filter (fun iv =>
      includeAlpha || (mode != Mode.RGBA) || decide (iv.1 < p.length - 1))).map (·.2)

/-- Model of `_iter_channel_bytes`: the channel byte stream of an image in
row-major, canonical-channel order. -/
def iter_channel_bytes (img : Img) (includeAlpha : Bool) : List Nat :=
  (img.pixels.map (pixelChannels img.mode includeAlpha)).flatten

/-- Take exactly `k` values from the modified-channel iterator, returning
the consumed prefix and the remainder, or `none` when the iterator is
exhausted (Python's `StopIteration` from `next`). -/
def takePixel : Nat → List Nat → Option (List Nat × List Nat)
  | 0, s => some ([], s)
  | _ + 1, [] => none
  | k + 1, v :: s => (takePixel k s).map (fun pr => (v :: pr.1, pr.2))

/-- One iteration of the pixel-rebuilding loop in `_channels_to_image`.
For `RGBA` with `include_alpha=False` the source appends
`original_pixel[3]` for the alpha slot, but `original_pixel` is an
undefined name, so Python raises `NameError` after consuming the three
colour channels (or `StopIteration` first if the stream is short). -/
def rebuildPixel (mode : Mode) (includeAlpha : Bool) (s : List Nat) :
    Except PyError (List Nat × List Nat) :=
  match mode with
  | .L =>
    match s with
    | v :: rest => .ok ([v], rest)
    | [] => .error .stopIteration
  | .RGB =>
    match takePixel 3 s with
    | some pr => .ok pr
    | none => .error .stopIteration
  | .RGBA =>
    if includeAlpha then
      match takePixel 4 s with
      | some pr => .ok pr
      | none => .error .stopIteration
    else
      match takePixel 3 s with
      | some _ => .error .nameError
      | none => .error .stopIteration

/-- The full `for y ... for x ...` rebuilding loop of
`_channels_to_image`, over `width * height` pixels. -/
def rebuildPixels (mode : Mode) (includeAlpha : Bool) :
    Nat → List Nat → Except PyError (List (List Nat))
  | 0, _ => .ok []
  | n + 1, s =>
    match rebuildPixel mode includeAlpha s with
    | .error e => .error e
    | .ok pr =>
      match rebuildPixels mode includeAlpha n pr.2 with
      | .error e => .error e
      | .ok ps => .ok (pr.1 :: ps)

/-- Model of `_channels_to_image`: rebuild a fresh image of the same
size and mode from the modified channel stream. -/
def channels_to_image (img : Img) (modifiedChannels : List Nat) (includeAlpha : Bool) :
    Except PyError Img :=
  match rebuildPixels img.mode includeAlpha (img.width * img.height) modifiedChannels with
  | .error e => .error e
  | .ok ps => .ok ⟨img.width, img.height, img.mode, ps⟩

/-- Model of `calculate_required_bits_for_payload` (the source ignores
its `lsb_count` parameter and returns `payload_length_bytes * 8`). -/
def calculate_required_bits_for_payload (payloadLengthBytes : Nat) (lsbCount : Nat) : Nat :=
  payloadLengthBytes * 8

/-- The `payload_value` accumulated for one channel byte by the inner
`for i in range(lsb_count)` loop of `embed_payload_into_image`:
`payload_value |= bits[bit_index] << i`, stopping early when the bits run
out. -/
def groupVal : List Nat → Nat → Nat
  | _, 0 => 0
  | [], _ + 1 => 0
  | b :: bs, k + 1 => b ||| (groupVal bs k <<< 1)

/-- The channel loop of `embed_payload_into_image`: while payload bits
remain, clear the low bits of the channel byte and OR in the next group
of payload bits (least significant first); afterwards channel bytes pass
through unchanged. -/
def embedChannels : List Nat → List Nat → Nat → Nat → List Nat
  | [], _, _, _ => []
  | c :: cs, [], clearMask, lsbCount => c :: embedChannels cs [] clearMask lsbCount
  | c :: cs, b :: bs, clearMask, lsbCount =>
      ((c &&& clearMask) ||| groupVal (b :: bs) lsbCount) ::
        embedChannels cs ((b :: bs).drop lsbCount) clearMask lsbCount

/-- Model of `embed_payload_into_image`.  `struct.pack(">I", len(payload))`
raises `struct.error` when the length does not fit in 32 bits; the
capacity check then compares the header-inclusive bit count against
`width * height * (3 if include_alpha else 4) * lsb_count` exactly as the
source does. -/
def embed_payload_into_image (img : Img) (payload : List Nat)
    (includeAlpha : Bool) (lsbCount : Nat) : Except PyError Img :=
  if payload.length ≥ 4294967296 then .error .structError
  else
    let payloadWithHeader := packUInt32BE payload.length ++ payload
    let requiredBits := calculate_required_bits_for_payload payloadWithHeader.length lsbCount
    let availableBits := img.width * img.height * (if includeAlpha then 3 else 4) * lsbCount
    if requiredBits > availableBits then .error (.capacity requiredBits availableBits)
    else
      let payloadBits := bytes_to_bits payloadWithHeader
      let clearMask := 255 ^^^ ((1 <<< lsbCount) - 1)
      channels_to_image img
        (embedChannels (iter_channel_bytes img includeAlpha) payloadBits clearMask lsbCount)
        includeAlpha

/-- The bit-collection loop of `extract_payload_from_image`: for each
channel byte, append `(channel_byte >> i) & 1` for `i` from 0 to
`lsb_count - 1`. -/
def extractChannelBits (lsbCount : Nat) (channels : List Nat) : List Nat :=
  channels.flatMap (fun c => (List.range lsbCount).map (fun i => (c >>> i) &&& 1))

/-- Model of `extract_payload_from_image`. -/
def extract_payload_from_image (img : Img) (includeAlpha : Bool) (lsbCount : Nat) :
    Except PyError (List Nat) :=
  let payloadWithHeader :=
    bits_to_bytes (extractChannelBits lsbCount (iter_channel_bytes img includeAlpha))
  if payloadWithHeader.length < 4 then
    .error (.format "Payload header missing or corrupted")
  else
    let payloadLength := beUInt32 (payloadWithHeader.take 4)
    if payloadWithHeader.length < 4 + payloadLength then
      .error (.format "Payload length mismatch")
    else
      .ok ((payloadWithHeader.take (4 + payloadLength)).drop 4)

/-- Model of `build_payload_from_text`.  The fresh random salt and nonce
drawn inside `derive_key_from_password` and `encrypt_with_aes_gcm` are
the explicit `urandomSalt` / `urandomNonce` arguments. -/
def build_payload_from_text (lib : CryptoLib) (text password : List Nat)
    (urandomSalt urandomNonce : List Nat) (kdfParams : Option KdfParams) :
    Except PyError (List Nat) :=
  let taggedText := START_TAG ++ text ++ END_TAG
  let rotatedText := rotate_letters taggedText (password.length : Int)
  let utf8Bytes := text_to_bytes rotatedText
  let ks := derive_key_from_password lib password urandomSalt none kdfParams
  let cnt := encrypt_with_aes_gcm lib utf8Bytes ks.1 urandomNonce
  pack_encrypted_payload ks.2 cnt.2.1 cnt.2.2 cnt.1

/-- Model of `extract_text_from_payload`.  The salt comes from the
unpacked payload, so the `os.urandom` argument of key derivation is never
consumed (passed here as `[]`). -/
def extract_text_from_payload (lib : CryptoLib) (payload password : List Nat) :
    Except PyError (List Nat) :=
  match unpack_encrypted_payload payload with
  | .error e => .error e
  | .ok (salt, nonce, tag, ciphertext) =>
    let ks := derive_key_from_password lib password [] (some salt) none
    match decrypt_with_aes_gcm lib ciphertext ks.1 nonce tag with
    | .error e => .error e
    | .ok decryptedBytes =>
      match bytes_to_text decryptedBytes with
      | .error e => .error e
      | .ok decodedText =>
        let derotatedText := rotate_letters decodedText (-(password.length : Int))
        if START_TAG.isPrefixOf derotatedText && END_TAG.isSuffixOf derotatedText then
          .ok ((derotatedText.take (derotatedText.length - END_TAG.length)).drop
            START_TAG.length)
        else .error (.format "Payload tags are missing or corrupted")

instance {ε α : Type} [DecidableEq ε] [DecidableEq α] : DecidableEq (Except ε α)
  | .ok a, .ok b => decidable_of_iff (a = b) (by simp)
  | .error a, .error b => decidable_of_iff (a = b) (by simp)
  | .ok _, .error _ => isFalse (by simp)
  | .error _, .ok _ => isFalse (by simp)

/-- A concrete instantiation of the abstract `cryptography`-library
interface used by closed witnesses and counterexamples: the cipher is the
identity with a fixed all-zero 16-byte tag, which satisfies the AES-GCM
contract hypotheses (decrypting an encryption returns the plaintext, the
tag is 16 bytes, ciphertext length and byte range match the plaintext). -/
def mockCryptoLib : CryptoLib where
  pbkdf2Sha256 := fun pw salt _ _ => (pw ++ salt).take 32
  aesGcmEncrypt := fun pt _ _ => (pt, List.replicate 16 0)
  aesGcmDecrypt := fun ct _ _ tag => if tag = List.replicate 16 0 then some ct else none

/-- A 3x3 RGB test image. -/
def rgbImgC2 : Img := ⟨3, 3, Mode.RGB, List.replicate 9 [10, 20, 30]⟩

/-- A 4x3 RGBA test image. -/
def rgbaImgC4 : Img := ⟨4, 3, Mode.RGBA, List.replicate 12 [1, 2, 3, 4]⟩

/-- C2 (failing input): the usable channel stream of a 3x3 RGB image with
`include_alpha=False` has 27 bytes, and embedding the empty payload needs
`8 * (0 + 4) = 32 > 27` bits, yet `embed_payload_into_image` does not
raise `CapacityError` — it returns an image (the claim and the spec
require `CapacityError(required, available)` exactly when the required
bits exceed stream length x `lsb_count`; the source computes
`available_bits` from `3 if include_alpha else 4`, inverting the channel
count, so the framed payload is silently truncated instead). -/
theorem C2_capacity_check_divergence :
    (iter_channel_bytes rgbImgC2 false).length = 27 ∧
    8 * (([] : List Nat).length + 4) > (iter_channel_bytes rgbImgC2 false).length * 1 ∧
    embed_payload_into_image rgbImgC2 [] false 1 =
      .ok ⟨3, 3, Mode.RGB, List.replicate 9 [10, 20, 30]⟩ := by
  decide

/-- C4 (failing input): a 36-byte stream holds the 32 required bits of the
empty payload, so the embed fits, yet on an RGBA image with
`include_alpha=False` the rebuild step references the undefined name
`original_pixel` and Python raises `NameError` instead of returning an
image whose alpha bytes are carried forward. -/
theorem C4_alpha_rebuild_error :
    8 * (([] : List Nat).length + 4) ≤ (iter_channel_bytes rgbaImgC4 false).length * 1 ∧
    embed_payload_into_image rgbaImgC4 [] false 1 = .error .nameError := by
  decide

/-- C3 (counterexample): with a concrete crypto backend and salt bytes
`0xAA`, the first 4 bytes of `build_payload_from_text`'s result are salt
bytes, not a big-endian length header: interpreted as a length they give
2863311530, while the bytes following them number only 60.  The claim
that the result "begins with a 4-byte big-endian unsigned length header"
is false: the header is added later, inside `embed_payload_into_image`. -/
theorem C3_counterexample :
    ∃ payload,
      build_payload_from_text mockCryptoLib (strCps "") (strCps "pw")
          (List.replicate 16 170) (List.replicate 12 7) none = .ok payload ∧
      beUInt32 (payload.take 4) = 2863311530 ∧
      (payload.drop 4).length = 60 ∧
      beUInt32 (payload.take 4) ≠ (payload.drop 4).length := by
  refine ⟨_, rfl, by decide, by decide, by decide⟩

lemma build_payload_from_text_eq (lib : CryptoLib) (t p usalt unonce : List Nat)
    (hs : usalt.length = 16) (hn : unonce.length = 12)
    (htag : (lib.aesGcmEncrypt
        (text_to_bytes (rotate_letters (START_TAG ++ t ++ END_TAG) (p.length : Int)))
        (lib.pbkdf2Sha256 (text_to_bytes p) usalt 100000 32) unonce).2.length = 16) :
    build_payload_from_text lib t p usalt unonce none =
      .ok (usalt ++ unonce ++
        (lib.aesGcmEncrypt
          (text_to_bytes (rotate_letters (START_TAG ++ t ++ END_TAG) (p.length : Int)))
          (lib.pbkdf2Sha256 (text_to_bytes p) usalt 100000 32) unonce).2 ++
        (lib.aesGcmEncrypt
          (text_to_bytes (rotate_letters (START_TAG ++ t ++ END_TAG) (p.length : Int)))
          (lib.pbkdf2Sha256 (text_to_bytes p) usalt 100000 32) unonce).1) := by
  unfold build_payload_from_text derive_key_from_password encrypt_with_aes_gcm
    pack_encrypted_payload
  rw [if_neg (by simp [SALT_LENGTH, hs]), if_neg (by simp [NONCE_LENGTH, hn]),
      if_neg (by simpa [TAG_LENGTH] using htag)]

/-- C3 (amended): `build_payload_from_text` returns the packed payload
`salt ‖ nonce ‖ tag ‖ ciphertext` with NO length header, of total length
`44 + len(ciphertext)`; the 4-byte big-endian header equal to the length
of what follows it is prepended by `embed_payload_into_image`, whose
framed sequence `header ‖ payload` has length `4 + len(payload)` (≥ 48
once the payload holds the 44 fixed bytes and a tagged ciphertext). -/
theorem C3_build_payload_layout (lib : CryptoLib) (t p usalt unonce : List Nat)
    (hs : usalt.length = 16) (hn : unonce.length = 12)
    (htag : (lib.aesGcmEncrypt
        (text_to_bytes (rotate_letters (START_TAG ++ t ++ END_TAG) (p.length : Int)))
        (lib.pbkdf2Sha256 (text_to_bytes p) usalt 100000 32) unonce).2.length = 16) :
    (∃ ciphertext tag : List Nat, tag.length = 16 ∧
      build_payload_from_text lib t p usalt unonce none =
        .ok (usalt ++ unonce ++ tag ++ ciphertext) ∧
      (usalt ++ unonce ++ tag ++ ciphertext).length = 44 + ciphertext.length) ∧
    (∀ payload : List Nat, payload.length < 4294967296 →
      beUInt32 ((packUInt32BE payload.length ++ payload).take 4) = payload.length ∧
      (packUInt32BE payload.length ++ payload).length = 4 + payload.length) := by
  constructor
  · refine ⟨_, _, htag, build_payload_from_text_eq lib t p usalt unonce hs hn htag, ?_⟩
    simp only [List.length_append, hs, hn, htag]
  · intro payload hlen
    constructor
    · rw [List.take_left' (by rfl : (packUInt32BE payload.length).length = 4)]
      unfold packUInt32BE beUInt32
      simp [List.foldl]
      omega
    · simp [packUInt32BE]
      omega

/-- Closed witness for C3's amended layout theorem at concrete inputs. -/
theorem C3_build_payload_layout_witness :
    (∃ ciphertext tag : List Nat, tag.length = 16 ∧
      build_payload_from_text mockCryptoLib (strCps "hi") (strCps "pw")
          (List.replicate 16 1) (List.replicate 12 2) none =
        .ok (List.replicate 16 1 ++ List.replicate 12 2 ++ tag ++ ciphertext) ∧
      (List.replicate 16 1 ++ List.replicate 12 2 ++ tag ++ ciphertext).length =
        44 + ciphertext.length) ∧
    (∀ payload : List Nat, payload.length < 4294967296 →
      beUInt32 ((packUInt32BE payload.length ++ payload).take 4) = payload.length ∧
      (packUInt32BE payload.length ++ payload).length = 4 + payload.length) :=
  C3_build_payload_layout mockCryptoLib (strCps "hi") (strCps "pw")
    (List.replicate 16 1) (List.replicate 12 2) (by decide) (by decide) (by decide)

theorem bits_to_bytes_length : ∀ bits : List Nat,
    (bits_to_bytes bits).length = bits.length / 8
  | [] => rfl
  | [_] => by simp [bits_to_bytes]
  | [_, _] => by simp [bits_to_bytes]
  | [_, _, _] => by simp [bits_to_bytes]
  | [_, _, _, _] => by simp [bits_to_bytes]
  | [_, _, _, _, _] => by simp [bits_to_bytes]
  | [_, _, _, _, _, _] => by simp [bits_to_bytes]
  | [_, _, _, _, _, _, _] => by simp [bits_to_bytes]
  | _ :: _ :: _ :: _ :: _ :: _ :: _ :: _ :: rest => by
      have ih := bits_to_bytes_length rest
      simp [bits_to_bytes, ih]
      omega

lemma extractChannelBits_length (lsb : Nat) (channels : List Nat) :
    (extractChannelBits lsb channels).length = channels.length * lsb := by
  induction channels with
  | nil => simp [extractChannelBits]
  | cons c cs ih =>
      simp only [extractChannelBits, List.flatMap_cons] at ih ⊢
      simp only [List.length_append, List.length_map, List.length_range, ih,
        List.length_cons]
      ring

/-- C6: `extract_payload_from_image` recovers the bytes packed from the
low `lsb_count` bits of every channel byte in stream order (one packed
byte per 8 collected bits, a trailing partial byte dropped), fails with
`FormatError` when fewer than 4 bytes are recoverable, fails with
`FormatError` when the big-endian length header `L` read from the first 4
bytes exceeds the recovered bytes after the header, and otherwise returns
exactly the next `L` bytes. -/
theorem C6_extract_payload_spec (img : Img) (ia : Bool) (lsb : Nat) :
    (extractChannelBits lsb (iter_channel_bytes img ia)).length =
      (iter_channel_bytes img ia).length * lsb ∧
    (bits_to_bytes (extractChannelBits lsb (iter_channel_bytes img ia))).length =
      (iter_channel_bytes img ia).length * lsb / 8 ∧
    ((bits_to_bytes (extractChannelBits lsb (iter_channel_bytes img ia))).length < 4 →
      extract_payload_from_image img ia lsb =
        .error (.format "Payload header missing or corrupted")) ∧
    (∀ L : Nat,
      L = beUInt32 ((bits_to_bytes (extractChannelBits lsb (iter_channel_bytes img ia))).take 4) →
      4 ≤ (bits_to_bytes (extractChannelBits lsb (iter_channel_bytes img ia))).length →
      ((bits_to_bytes (extractChannelBits lsb (iter_channel_bytes img ia))).length < 4 + L →
        extract_payload_from_image img ia lsb = .error (.format "Payload length mismatch")) ∧
      (4 + L ≤ (bits_to_bytes (extractChannelBits lsb (iter_channel_bytes img ia))).length →
        extract_payload_from_image img ia lsb =
          .ok (((bits_to_bytes (extractChannelBits lsb (iter_channel_bytes img ia))).drop 4).take L) ∧
        (((bits_to_bytes (extractChannelBits lsb (iter_channel_bytes img ia))).drop 4).take L).length = L)) := by
  refine ⟨extractChannelBits_length lsb _, ?_, ?_, ?_⟩
  · rw [bits_to_bytes_length, extractChannelBits_length]
  · intro hshort
    simp only [extract_payload_from_image]
    rw [if_pos hshort]
  · intro L hL h4
    subst hL
    constructor
    · intro hmis
      simp only [extract_payload_from_image]
      split_ifs with h1
      · exact absurd h1 (by omega)
      · rfl
    · intro hfit
      constructor
      · simp only [extract_payload_from_image]
        split_ifs with h1 h2
        · exact absurd h1 (by omega)
        · exact absurd h2 (by omega)
        · rw [List.drop_take, Nat.add_sub_cancel_left]
      · rw [List.length_take, List.length_drop]
        omega

/-- Closed witness for C6 on a concrete grayscale image. -/
theorem C6_extract_payload_spec_witness :
    (extractChannelBits 1 (iter_channel_bytes ⟨8, 5, Mode.L, List.replicate 40 [200]⟩ false)).length =
      (iter_channel_bytes ⟨8, 5, Mode.L, List.replicate 40 [200]⟩ false).length * 1 ∧
    (bits_to_bytes (extractChannelBits 1 (iter_channel_bytes ⟨8, 5, Mode.L, List.replicate 40 [200]⟩ false))).length =
      (iter_channel_bytes ⟨8, 5, Mode.L, List.replicate 40 [200]⟩ false).length * 1 / 8 ∧
    ((bits_to_bytes (extractChannelBits 1 (iter_channel_bytes ⟨8, 5, Mode.L, List.replicate 40 [200]⟩ false))).length < 4 →
      extract_payload_from_image ⟨8, 5, Mode.L, List.replicate 40 [200]⟩ false 1 =
        .error (.format "Payload header missing or corrupted")) ∧
    (∀ L : Nat,
      L = beUInt32 ((bits_to_bytes (extractChannelBits 1 (iter_channel_bytes ⟨8, 5, Mode.L, List.replicate 40 [200]⟩ false))).take 4) →
      4 ≤ (bits_to_bytes (extractChannelBits 1 (iter_channel_bytes ⟨8, 5, Mode.L, List.replicate 40 [200]⟩ false))).length →
      ((bits_to_bytes (extractChannelBits 1 (iter_channel_bytes ⟨8, 5, Mode.L, List.replicate 40 [200]⟩ false))).length < 4 + L →
        extract_payload_from_image ⟨8, 5, Mode.L, List.replicate 40 [200]⟩ false 1 =
          .error (.format "Payload length mismatch")) ∧
      (4 + L ≤ (bits_to_bytes (extractChannelBits 1 (iter_channel_bytes ⟨8, 5, Mode.L, List.replicate 40 [200]⟩ false))).length →
        extract_payload_from_image ⟨8, 5, Mode.L, List.replicate 40 [200]⟩ false 1 =
          .ok (((bits_to_bytes (extractChannelBits 1 (iter_channel_bytes ⟨8, 5, Mode.L, List.replicate 40 [200]⟩ false))).drop 4).take L) ∧
        (((bits_to_bytes (extractChannelBits 1 (iter_channel_bytes ⟨8, 5, Mode.L, List.replicate 40 [200]⟩ false))).drop 4).take L).length = L)) :=
  C6_extract_payload_spec ⟨8, 5, Mode.L, List.replicate 40 [200]⟩ false 1

lemma bit_as_testBit (y i : Nat) : (y >>> i) &&& 1 = (y.testBit i).toNat := by
  rw [shiftRight_and_one, Nat.toNat_testBit]

lemma groupVal_testBit_lt (bits : List Nat) (k i : Nat)
    (hb : ∀ b ∈ bits, b ≤ 1) (hik : i < k) :
    (groupVal bits k).testBit i = (bits.getD i 0 == 1) := by
  induction bits generalizing k i with
  | nil =>
    cases k with
    | zero => omega
    | succ k => simp [groupVal]
  | cons b bs ih =>
    cases k with
    | zero => omega
    | succ k =>
      have hb0 : b = 0 ∨ b = 1 := by
        have := hb b (by simp)
        omega
      cases i with
      | zero =>
        simp only [groupVal, Nat.testBit_or, Nat.testBit_shiftLeft]
        rcases hb0 with h | h <;> simp [h]
      | succ i =>
        have hbb : b.testBit (i + 1) = false := by
          apply Nat.testBit_lt_two_pow
          have h1 := hb b (by simp)
          have h2 : 2 ≤ 2 ^ (i + 1) := by
            calc 2 = 2 ^ 1 := by norm_num
            _ ≤ 2 ^ (i + 1) := Nat.pow_le_pow_right (by norm_num) (by omega)
          omega
        simp only [groupVal, Nat.testBit_or, Nat.testBit_shiftLeft, hbb, Bool.false_or,
          List.getD_cons_succ, Nat.add_sub_cancel]
        rw [show (decide (1 ≤ i + 1)) = true by simp, Bool.true_and]
        exact ih k i (fun x hx => hb x (by simp [hx])) (by omega)

lemma groupVal_testBit_ge (bits : List Nat) (k i : Nat)
    (hb : ∀ b ∈ bits, b ≤ 1) (hik : k ≤ i) :
    (groupVal bits k).testBit i = false := by
  induction bits generalizing k i with
  | nil =>
    cases k <;> simp [groupVal]
  | cons b bs ih =>
    cases k with
    | zero => simp [groupVal]
    | succ k =>
      simp only [groupVal, Nat.testBit_or, Nat.testBit_shiftLeft]
      have hbb : b.testBit i = false := by
        apply Nat.testBit_lt_two_pow
        have h1 := hb b (by simp)
        have h2 : 2 ≤ 2 ^ i := by
          calc 2 = 2 ^ 1 := by norm_num
          _ ≤ 2 ^ i := Nat.pow_le_pow_right (by norm_num) (by omega)
        omega
      rw [hbb, ih k (i - 1) (fun x hx => hb x (by simp [hx])) (by omega)]
      simp

lemma one_shiftLeft_sub_one (lsb : Nat) : (1 <<< lsb) - 1 = 2 ^ lsb - 1 := by
  rw [Nat.shiftLeft_eq, one_mul]

lemma clearMask_testBit (lsb i : Nat) :
    (255 ^^^ ((1 <<< lsb) - 1)).testBit i = (decide (i < 8) ^^ decide (i < lsb)) := by
  rw [one_shiftLeft_sub_one, Nat.testBit_xor]
  have h255 : (255 : Nat) = 2 ^ 8 - 1 := by norm_num
  rw [h255, Nat.testBit_two_pow_sub_one, Nat.testBit_two_pow_sub_one]

lemma embedded_testBit_lt (c : Nat) (bits : List Nat) (lsb i : Nat)
    (hb : ∀ b ∈ bits, b ≤ 1) (hi : i < lsb) (h8 : lsb ≤ 8) :
    (((c &&& (255 ^^^ ((1 <<< lsb) - 1))) ||| groupVal bits lsb)).testBit i =
      (bits.getD i 0 == 1) := by
  rw [Nat.testBit_or, Nat.testBit_and, clearMask_testBit]
  rw [show (decide (i < 8) ^^ decide (i < lsb)) = false by
    rw [decide_eq_true (by omega : i < 8), decide_eq_true hi]; rfl]
  rw [Bool.and_false, Bool.false_or]
  exact groupVal_testBit_lt bits lsb i hb hi

lemma embedded_testBit_ge (c : Nat) (bits : List Nat) (lsb i : Nat)
    (hb : ∀ b ∈ bits, b ≤ 1) (hi : lsb ≤ i) (hc : c < 256) :
    (((c &&& (255 ^^^ ((1 <<< lsb) - 1))) ||| groupVal bits lsb)).testBit i =
      c.testBit i := by
  rw [Nat.testBit_or, Nat.testBit_and, clearMask_testBit,
    groupVal_testBit_ge bits lsb i hb hi, Bool.or_false]
  rw [show decide (i < lsb) = false by simp; omega]
  by_cases h8 : i < 8
  · rw [decide_eq_true h8]
    simp
  · have hcb : c.testBit i = false := by
      apply Nat.testBit_lt_two_pow
      calc c < 256 := hc
      _ = 2 ^ 8 := by norm_num
      _ ≤ 2 ^ i := Nat.pow_le_pow_right (by norm_num) (by omega)
    rw [hcb, decide_eq_false h8]
    simp

lemma extract_bits_of_embedded_byte (c : Nat) (bits : List Nat) (lsb : Nat)
    (hb : ∀ b ∈ bits, b ≤ 1) (h8 : lsb ≤ 8) :
    (List.range lsb).map
        (fun i => (((c &&& (255 ^^^ ((1 <<< lsb) - 1))) ||| groupVal bits lsb) >>> i) &&& 1)
      = bits.take lsb ++ List.replicate (lsb - bits.length) 0 := by
  apply List.ext_getElem
  · simp only [List.length_map, List.length_range, List.length_append,
      List.length_take, List.length_replicate]
    omega
  · intro i hi hi'
    simp only [List.length_map, List.length_range] at hi
    rw [List.getElem_map, List.getElem_range, bit_as_testBit,
      embedded_testBit_lt c bits lsb i hb hi h8]
    by_cases hlen : i < bits.length
    · rw [List.getElem_append_left (by simp; omega)]
      rw [List.getElem_take]
      rw [List.getD_eq_getElem bits 0 hlen]
      have := hb bits[i] (List.getElem_mem _)
      interval_cases h : bits[i] <;> simp
    · rw [List.getElem_append_right (by simp; omega)]
      rw [List.getElem_replicate]
      rw [List.getD_eq_default bits 0 (by omega)]
      rfl

lemma embedChannels_length (cs : List Nat) (bits : List Nat) (cm k : Nat) :
    (embedChannels cs bits cm k).length = cs.length := by
  induction cs generalizing bits with
  | nil => cases bits <;> rfl
  | cons c cs ih =>
    cases bits with
    | nil => simpa [embedChannels] using ih []
    | cons b bs => simpa [embedChannels] using ih _

lemma extractChannelBits_cons (lsb c : Nat) (cs : List Nat) :
    extractChannelBits lsb (c :: cs) =
      (List.range lsb).map (fun i => (c >>> i) &&& 1) ++ extractChannelBits lsb cs := by
  simp [extractChannelBits]

lemma extractBits_embedChannels_prefix (channels : List Nat) (bits : List Nat) (lsb : Nat)
    (hb : ∀ b ∈ bits, b ≤ 1) (h8 : lsb ≤ 8)
    (hlen : bits.length ≤ channels.length * lsb) :
    ∃ rest, extractChannelBits lsb
        (embedChannels channels bits (255 ^^^ ((1 <<< lsb) - 1)) lsb) = bits ++ rest := by
  induction channels generalizing bits with
  | nil =>
    have : bits = [] := by
      rw [List.length_nil, Nat.zero_mul] at hlen
      exact List.eq_nil_of_length_eq_zero (by omega)
    subst this
    exact ⟨[], rfl⟩
  | cons c cs ih =>
    cases bits with
    | nil => exact ⟨_, rfl⟩
    | cons b bs =>
      rw [show embedChannels (c :: cs) (b :: bs) (255 ^^^ ((1 <<< lsb) - 1)) lsb =
            ((c &&& (255 ^^^ ((1 <<< lsb) - 1))) ||| groupVal (b :: bs) lsb) ::
              embedChannels cs ((b :: bs).drop lsb) (255 ^^^ ((1 <<< lsb) - 1)) lsb
          from rfl]
      rw [extractChannelBits_cons]
      rw [extract_bits_of_embedded_byte c (b :: bs) lsb hb h8]
      have hbdrop : ∀ x ∈ (b :: bs).drop lsb, x ≤ 1 :=
        fun x hx => hb x (List.drop_subset lsb _ hx)
      have hlendrop : ((b :: bs).drop lsb).length ≤ cs.length * lsb := by
        simp only [List.length_drop, List.length_cons] at hlen ⊢
        rw [Nat.add_mul] at hlen
        omega
      obtain ⟨rest, hrest⟩ := ih ((b :: bs).drop lsb) hbdrop hlendrop
      rw [hrest]
      by_cases hcase : lsb ≤ (b :: bs).length
      · refine ⟨rest, ?_⟩
        rw [show lsb - (b :: bs).length = 0 from by omega, List.replicate_zero,
          List.append_nil, ← List.append_assoc, List.take_append_drop]
      · refine ⟨List.replicate (lsb - (b :: bs).length) 0 ++ rest, ?_⟩
        rw [List.drop_eq_nil_of_le (by omega), List.take_of_length_le (by omega)]
        simp

lemma bytes_to_bits_le_one (data : List Nat) : ∀ b ∈ bytes_to_bits data, b ≤ 1 := by
  intro b hb
  simp only [bytes_to_bits, List.mem_flatMap, List.mem_map, List.mem_range] at hb
  obtain ⟨x, _, i, _, rfl⟩ := hb
  have := and_one_lt (x >>> (7 - i))
  omega

lemma packUInt32BE_lt (n : Nat) : ∀ b ∈ packUInt32BE n, b < 256 := by
  intro b hb
  simp only [packUInt32BE, List.mem_cons, List.not_mem_nil, or_false] at hb
  rcases hb with h | h | h | h <;> omega

lemma beUInt32_packUInt32BE (n : Nat) (h : n < 4294967296) :
    beUInt32 (packUInt32BE n) = n := by
  simp only [beUInt32, packUInt32BE, List.foldl]
  omega

theorem bits_to_bytes_append : ∀ (a b : List Nat), a.length % 8 = 0 →
    bits_to_bytes (a ++ b) = bits_to_bytes a ++ bits_to_bytes b
  | [], _, _ => rfl
  | [_], _, h => by simp at h
  | [_, _], _, h => by simp at h
  | [_, _, _], _, h => by simp at h
  | [_, _, _, _], _, h => by simp at h
  | [_, _, _, _, _], _, h => by simp at h
  | [_, _, _, _, _, _], _, h => by simp at h
  | [_, _, _, _, _, _, _], _, h => by simp at h
  | a0 :: a1 :: a2 :: a3 :: a4 :: a5 :: a6 :: a7 :: rest, b, h => by
      have ih := bits_to_bytes_append rest b (by
        simp only [List.length_cons] at h
        omega)
      simp only [List.cons_append, bits_to_bytes]
      exact congrArg _ ih

lemma pixelChannels_L (ia : Bool) (p : List Nat) :
    pixelChannels Mode.L ia p = p := rfl

lemma pixelChannels_RGB_eq (ia : Bool) (a b c : Nat) :
    pixelChannels Mode.RGB ia [a, b, c] = [a, b, c] := by
  cases ia <;> rfl

lemma pixelChannels_RGBA_true_eq (a b c d : Nat) :
    pixelChannels Mode.RGBA true [a, b, c, d] = [a, b, c, d] := rfl

lemma pixelChannels_RGBA_false_eq (a b c d : Nat) :
    pixelChannels Mode.RGBA false [a, b, c, d] = [a, b, c] := rfl

lemma flatten_length_const {α : Type} (l : List (List α)) (k : Nat)
    (h : ∀ p ∈ l, p.length = k) : l.flatten.length = l.length * k := by
  induction l with
  | nil => simp
  | cons p ps ih =>
    simp only [List.flatten_cons, List.length_append, List.length_cons,
      h p (by simp), ih (fun q hq => h q (by simp [hq]))]
    rw [Nat.add_mul, one_mul]
    omega

lemma flatten_map_singleton {α : Type} (l : List α) :
    (l.map (fun v => [v])).flatten = l := by
  induction l with
  | nil => rfl
  | cons v vs ih => simp [ih]

lemma rebuildPixels_L (ia : Bool) (n : Nat) (s : List Nat) (h : s.length = n) :
    rebuildPixels Mode.L ia n s = .ok (s.map (fun v => [v])) := by
  induction n generalizing s with
  | zero =>
    cases s with
    | nil => rfl
    | cons v rest => simp at h
  | succ n ih =>
    cases s with
    | nil => simp at h
    | cons v rest =>
      simp only [rebuildPixels, rebuildPixel]
      rw [ih rest (by simpa using h)]
      rfl

lemma takePixel_three (a b c : Nat) (rest : List Nat) :
    takePixel 3 (a :: b :: c :: rest) = some ([a, b, c], rest) := rfl

lemma takePixel_four (a b c d : Nat) (rest : List Nat) :
    takePixel 4 (a :: b :: c :: d :: rest) = some ([a, b, c, d], rest) := rfl

lemma rebuildPixels_RGB (ia : Bool) (n : Nat) (s : List Nat) (h : s.length = 3 * n) :
    ∃ ps, rebuildPixels Mode.RGB ia n s = .ok ps ∧
      (ps.map (pixelChannels Mode.RGB ia)).flatten = s := by
  induction n generalizing s with
  | zero =>
    cases s with
    | nil => exact ⟨[], rfl, rfl⟩
    | cons v rest => simp at h
  | succ n ih =>
    match s, h with
    | a :: b :: c :: rest, h =>
      have hrest : rest.length = 3 * n := by
        simp only [List.length_cons] at h
        omega
      obtain ⟨ps, hps, hflat⟩ := ih rest hrest
      refine ⟨[a, b, c] :: ps, ?_, ?_⟩
      · simp only [rebuildPixels, rebuildPixel, takePixel_three, hps]
      · simp only [List.map_cons, List.flatten_cons, pixelChannels_RGB_eq, hflat,
          List.cons_append, List.nil_append]
    | [], h => simp at h
    | [_], h => simp at h; omega
    | [_, _], h => simp at h; omega

lemma rebuildPixels_RGBA_true (n : Nat) (s : List Nat) (h : s.length = 4 * n) :
    ∃ ps, rebuildPixels Mode.RGBA true n s = .ok ps ∧
      (ps.map (pixelChannels Mode.RGBA true)).flatten = s := by
  induction n generalizing s with
  | zero =>
    cases s with
    | nil => exact ⟨[], rfl, rfl⟩
    | cons v rest => simp at h
  | succ n ih =>
    match s, h with
    | a :: b :: c :: d :: rest, h =>
      have hrest : rest.length = 4 * n := by
        simp only [List.length_cons] at h
        omega
      obtain ⟨ps, hps, hflat⟩ := ih rest hrest
      refine ⟨[a, b, c, d] :: ps, ?_, ?_⟩
      · simp only [rebuildPixels, rebuildPixel, if_pos, takePixel_four, hps]
      · simp only [List.map_cons, List.flatten_cons, pixelChannels_RGBA_true_eq, hflat,
          List.cons_append, List.nil_append]
    | [], h => simp at h
    | [_], h => simp at h; omega
    | [_, _], h => simp at h; omega
    | [_, _, _], h => simp at h; omega

lemma length_eq_four {α : Type} {l : List α} :
    l.length = 4 ↔ ∃ a b c d, l = [a, b, c, d] := by
  constructor
  · intro h
    cases l with
    | nil => simp at h
    | cons a l1 =>
      have h3 : l1.length = 3 := by simpa using h
      obtain ⟨b, c, d, rfl⟩ := List.length_eq_three.mp h3
      exact ⟨a, b, c, d, rfl⟩
  · rintro ⟨a, b, c, d, rfl⟩
    rfl

lemma iter_length_L (img : Img) (ia : Bool) (hwf : img.wf) (hm : img.mode = Mode.L) :
    (iter_channel_bytes img ia).length = img.width * img.height := by
  unfold iter_channel_bytes
  rw [hm]
  have hmap : img.pixels.map (pixelChannels Mode.L ia) = img.pixels := by
    rw [show pixelChannels Mode.L ia = id from funext (fun p => rfl), List.map_id]
  rw [hmap, flatten_length_const img.pixels 1 (fun p hp => by
    have h := (hwf.2 p hp).1
    rw [hm] at h
    exact h), hwf.1, Nat.mul_one]

lemma iter_length_RGB (img : Img) (ia : Bool) (hwf : img.wf) (hm : img.mode = Mode.RGB) :
    (iter_channel_bytes img ia).length = img.width * img.height * 3 := by
  unfold iter_channel_bytes
  rw [flatten_length_const _ 3 (fun q hq => by
    obtain ⟨p, hp, rfl⟩ := List.mem_map.mp hq
    have h3 : p.length = 3 := by
      have h := (hwf.2 p hp).1
      rw [hm] at h
      exact h
    obtain ⟨a, b, c, rfl⟩ := List.length_eq_three.mp h3
    rw [hm, pixelChannels_RGB_eq]
    exact h3), List.length_map, hwf.1]

lemma iter_length_RGBA_true (img : Img) (hwf : img.wf) (hm : img.mode = Mode.RGBA) :
    (iter_channel_bytes img true).length = img.width * img.height * 4 := by
  unfold iter_channel_bytes
  rw [flatten_length_const _ 4 (fun q hq => by
    obtain ⟨p, hp, rfl⟩ := List.mem_map.mp hq
    have h4 : p.length = 4 := by
      have h := (hwf.2 p hp).1
      rw [hm] at h
      exact h
    obtain ⟨a, b, c, d, rfl⟩ := length_eq_four.mp h4
    rw [hm, pixelChannels_RGBA_true_eq]
    exact h4), List.length_map, hwf.1]

lemma rebuild_roundtrip (img : Img) (modified : List Nat) (ia : Bool)
    (hwf : img.wf)
    (hmode : img.mode = Mode.L ∨ img.mode = Mode.RGB ∨ (img.mode = Mode.RGBA ∧ ia = true))
    (hlen : modified.length = (iter_channel_bytes img ia).length) :
    ∃ ps, channels_to_image img modified ia = .ok ⟨img.width, img.height, img.mode, ps⟩ ∧
      iter_channel_bytes ⟨img.width, img.height, img.mode, ps⟩ ia = modified := by
  rcases hmode with hm | hm | ⟨hm, hia⟩
  · rw [iter_length_L img ia hwf hm] at hlen
    refine ⟨modified.map (fun v => [v]), ?_, ?_⟩
    · unfold channels_to_image
      rw [hm, rebuildPixels_L ia _ modified hlen]
    · unfold iter_channel_bytes
      simp only [hm]
      have hmap : (modified.map (fun v => [v])).map (pixelChannels Mode.L ia) =
          modified.map (fun v => [v]) := by
        simp [pixelChannels_L]
      rw [hmap, flatten_map_singleton]
  · rw [iter_length_RGB img ia hwf hm] at hlen
    obtain ⟨ps, hps, hflat⟩ := rebuildPixels_RGB ia (img.width * img.height) modified
      (by rw [hlen]; ring)
    refine ⟨ps, ?_, ?_⟩
    · unfold channels_to_image
      rw [hm, hps]
    · unfold iter_channel_bytes
      simpa only [hm] using hflat
  · subst hia
    rw [iter_length_RGBA_true img hwf hm] at hlen
    obtain ⟨ps, hps, hflat⟩ := rebuildPixels_RGBA_true (img.width * img.height) modified
      (by rw [hlen]; ring)
    refine ⟨ps, ?_, ?_⟩
    · unfold channels_to_image
      rw [hm, hps]
    · unfold iter_channel_bytes
      simpa only [hm] using hflat

lemma embed_extract_ok (img : Img) (P : List Nat) (ia : Bool) (lsb : Nat)
    (hwf : img.wf) (hmode : img.mode = Mode.L ∨ img.mode = Mode.RGB)
    (hP : ∀ b ∈ P, b < 256) (hPlen : P.length < 4294967292)
    (h1 : 1 ≤ lsb) (h8 : lsb ≤ 8)
    (hcap : 8 * (P.length + 4) ≤ (iter_channel_bytes img ia).length * lsb) :
    ∃ img', embed_payload_into_image img P ia lsb = .ok img' ∧
      extract_payload_from_image img' ia lsb = .ok P := by
  have hframedlen : (packUInt32BE P.length ++ P).length = 4 + P.length := by
    simp [packUInt32BE]
    omega
  have hframedbytes : ∀ b ∈ packUInt32BE P.length ++ P, b < 256 := by
    intro b hb
    rcases List.mem_append.mp hb with h | h
    · exact packUInt32BE_lt _ b h
    · exact hP b h
  have hbitsle : ∀ b ∈ bytes_to_bits (packUInt32BE P.length ++ P), b ≤ 1 :=
    bytes_to_bits_le_one _
  have hbitslen : (bytes_to_bits (packUInt32BE P.length ++ P)).length = 8 * (4 + P.length) := by
    rw [bytes_to_bits_length, hframedlen]
  obtain ⟨ps, hrebuild, hiter⟩ := rebuild_roundtrip img
    (embedChannels (iter_channel_bytes img ia) (bytes_to_bits (packUInt32BE P.length ++ P))
      (255 ^^^ ((1 <<< lsb) - 1)) lsb) ia hwf (Or.imp id Or.inl hmode)
    (embedChannels_length _ _ _ _)
  have havail : (iter_channel_bytes img ia).length * lsb ≤
      img.width * img.height * (if ia then 3 else 4) * lsb := by
    rcases hmode with hm | hm
    · rw [iter_length_L img ia hwf hm]
      refine Nat.mul_le_mul_right lsb ?_
      conv_lhs => rw [← Nat.mul_one (img.width * img.height)]
      exact Nat.mul_le_mul_left _ (by cases ia <;> norm_num)
    · rw [iter_length_RGB img ia hwf hm]
      exact Nat.mul_le_mul_right lsb (Nat.mul_le_mul_left _ (by cases ia <;> norm_num))
  have hembed : embed_payload_into_image img P ia lsb =
      .ok ⟨img.width, img.height, img.mode, ps⟩ := by
    simp only [embed_payload_into_image, calculate_required_bits_for_payload]
    rw [if_neg (by omega)]
    rw [if_neg (by
      simp only [not_lt, gt_iff_lt, not_lt]
      rw [hframedlen]
      omega)]
    exact hrebuild
  refine ⟨_, hembed, ?_⟩
  obtain ⟨rest, hpref⟩ := extractBits_embedChannels_prefix (iter_channel_bytes img ia)
    (bytes_to_bits (packUInt32BE P.length ++ P)) lsb hbitsle h8 (by omega)
  have hbeu : beUInt32 (packUInt32BE P.length) = P.length :=
    beUInt32_packUInt32BE _ (by omega)
  simp only [extract_payload_from_image]
  rw [hiter, hpref, bits_to_bytes_append _ _ (by omega),
    bits_to_bytes_bytes_to_bits _ hframedbytes]
  have htake4 : ((packUInt32BE P.length ++ P) ++ bits_to_bytes rest).take 4 =
      packUInt32BE P.length := by
    rw [List.append_assoc, List.take_left' (by rfl : (packUInt32BE P.length).length = 4)]
  have hXlen : ((packUInt32BE P.length ++ P) ++ bits_to_bytes rest).length =
      4 + P.length + (bits_to_bytes rest).length := by
    simp [packUInt32BE]
    omega
  rw [htake4, hbeu]
  rw [if_neg (by omega), if_neg (by omega)]
  rw [List.take_left' (by rw [hframedlen] : (packUInt32BE P.length ++ P).length = 4 + P.length),
    List.drop_left' (by rfl : (packUInt32BE P.length).length = 4)]

/-- A 3x3 RGBA test image used for the C5 counterexample. -/
def rgbaImgC5 : Img := ⟨3, 3, Mode.RGBA, List.replicate 9 [10, 20, 30, 40]⟩

/-- C5 (counterexample): on a 3x3 RGBA image with `include_alpha=True` and
`lsb_count=1`, the empty payload's 32 required bits fit the 36-byte
channel stream, yet `embed_payload_into_image` raises
`CapacityError(32, 27)` (the source computes `available_bits` with
`3 if include_alpha else 4`, inverting the channel count), so
`extract(embed(image, P)) = P` fails even though the claim's capacity
hypothesis holds. -/
theorem C5_counterexample :
    8 * (([] : List Nat).length + 4) ≤ (iter_channel_bytes rgbaImgC5 true).length * 1 ∧
    rgbaImgC5.wf ∧
    embed_payload_into_image rgbaImgC5 [] true 1 = .error (.capacity 32 27) := by
  decide

/-- C5 (amended): for every well-formed grayscale (`L`) or `RGB` image,
payload of bytes below 256 whose framed length fits the 32-bit header,
matching `include_alpha` and `lsb_count` between 1 and 8 on both sides,
and `8 * (len(P) + 4)` no larger than the usable channel stream length
times `lsb_count`, extraction after embedding returns exactly `P`.  (On
`RGBA` images the pipeline instead fails: spurious `CapacityError` when
alpha is included, `NameError` when it is excluded.) -/
theorem C5_embed_extract_roundtrip (img : Img) (P : List Nat) (ia : Bool) (lsb : Nat)
    (hwf : img.wf) (hmode : img.mode = Mode.L ∨ img.mode = Mode.RGB)
    (hP : ∀ b ∈ P, b < 256) (hPlen : P.length < 4294967292)
    (h1 : 1 ≤ lsb) (h8 : lsb ≤ 8)
    (hcap : 8 * (P.length + 4) ≤ (iter_channel_bytes img ia).length * lsb) :
    ∃ img', embed_payload_into_image img P ia lsb = .ok img' ∧
      extract_payload_from_image img' ia lsb = .ok P :=
  embed_extract_ok img P ia lsb hwf hmode hP hPlen h1 h8 hcap

/-- Closed witness for C5's amended round trip: an 8x5 grayscale image
and the one-byte payload `[171]`. -/
theorem C5_embed_extract_roundtrip_witness :
    ∃ img', embed_payload_into_image ⟨8, 5, Mode.L, List.replicate 40 [200]⟩ [171] false 1 =
        .ok img' ∧
      extract_payload_from_image img' false 1 = .ok [171] :=
  C5_embed_extract_roundtrip ⟨8, 5, Mode.L, List.replicate 40 [200]⟩ [171] false 1
    (by decide) (Or.inl rfl) (by decide) (by decide) (by decide) (by decide) (by decide)

lemma pixelChannels_subset (mode : Mode) (ia : Bool) (p : List Nat) :
    ∀ x ∈ pixelChannels mode ia p, x ∈ p := by
  intro x hx
  cases mode with
  | L => exact hx
  | RGB =>
    simp only [pixelChannels, List.mem_map] at hx
    obtain ⟨iv, hiv, rfl⟩ := hx
    have := List.mem_of_mem_filter hiv
    exact List.getElem?_mem (List.mem_enum_iff_getElem?.mp this)
  | RGBA =>
    simp only [pixelChannels, List.mem_map] at hx
    obtain ⟨iv, hiv, rfl⟩ := hx
    have := List.mem_of_mem_filter hiv
    exact List.getElem?_mem (List.mem_enum_iff_getElem?.mp this)

lemma iter_channel_bytes_lt (img : Img) (ia : Bool) (hwf : img.wf) :
    ∀ c ∈ iter_channel_bytes img ia, c < 256 := by
  intro c hc
  simp only [iter_channel_bytes, List.mem_flatten, List.mem_map] at hc
  obtain ⟨q, ⟨p, hp, rfl⟩, hcq⟩ := hc
  exact (hwf.2 p hp).2 c (pixelChannels_subset img.mode ia p c hcq)

lemma embedded_byte_high_bits (c : Nat) (bits : List Nat) (lsb : Nat)
    (hb : ∀ b ∈ bits, b ≤ 1) (hc : c < 256) :
    ((c &&& (255 ^^^ ((1 <<< lsb) - 1))) ||| groupVal bits lsb) >>> lsb = c >>> lsb := by
  apply Nat.eq_of_testBit_eq
  intro j
  rw [Nat.testBit_shiftRight, Nat.testBit_shiftRight]
  exact embedded_testBit_ge c bits lsb (lsb + j) hb (by omega) hc

lemma embedded_byte_close (c : Nat) (bits : List Nat) (lsb : Nat)
    (hb : ∀ b ∈ bits, b ≤ 1) (hc : c < 256) :
    ((c &&& (255 ^^^ ((1 <<< lsb) - 1))) ||| groupVal bits lsb) ≤ c + (2 ^ lsb - 1) ∧
    c ≤ ((c &&& (255 ^^^ ((1 <<< lsb) - 1))) ||| groupVal bits lsb) + (2 ^ lsb - 1) := by
  have hsh := embedded_byte_high_bits c bits lsb hb hc
  rw [Nat.shiftRight_eq_div_pow, Nat.shiftRight_eq_div_pow] at hsh
  have hod := Nat.div_add_mod ((c &&& (255 ^^^ ((1 <<< lsb) - 1))) ||| groupVal bits lsb)
    (2 ^ lsb)
  have hcd := Nat.div_add_mod c (2 ^ lsb)
  have hposX : 0 < 2 ^ lsb := Nat.pos_pow_of_pos lsb (by norm_num)
  have hmo := Nat.mod_lt ((c &&& (255 ^^^ ((1 <<< lsb) - 1))) ||| groupVal bits lsb) hposX
  have hmc := Nat.mod_lt c hposX
  rw [hsh] at hod
  omega

lemma embedChannels_forall2 (lsb : Nat) :
    ∀ (channels bits : List Nat), (∀ b ∈ bits, b ≤ 1) → (∀ c ∈ channels, c < 256) →
    List.Forall₂ (fun outB inB =>
        outB >>> lsb = inB >>> lsb ∧
        outB ≤ inB + (2 ^ lsb - 1) ∧ inB ≤ outB + (2 ^ lsb - 1))
      (embedChannels channels bits (255 ^^^ ((1 <<< lsb) - 1)) lsb) channels := by
  intro channels
  induction channels with
  | nil =>
    intro bits _ _
    cases bits <;> exact List.Forall₂.nil
  | cons c cs ih =>
    intro bits hb hc
    cases bits with
    | nil =>
      refine List.Forall₂.cons ⟨rfl, ?_, ?_⟩ (ih [] (by simp) (fun x hx => hc x (by simp [hx])))
      · omega
      · omega
    | cons b bs =>
      refine List.Forall₂.cons
        ⟨embedded_byte_high_bits c (b :: bs) lsb hb (hc c (by simp)),
         embedded_byte_close c (b :: bs) lsb hb (hc c (by simp))⟩
        (ih ((b :: bs).drop lsb)
          (fun x hx => hb x (List.drop_subset lsb _ hx))
          (fun x hx => hc x (by simp [hx])))

lemma channels_to_image_ok_iter (img : Img) (modified : List Nat) (ia : Bool) (img' : Img)
    (hwf : img.wf) (hlen : modified.length = (iter_channel_bytes img ia).length)
    (hok : channels_to_image img modified ia = .ok img') :
    iter_channel_bytes img' ia = modified := by
  by_cases hmode : img.mode = Mode.L ∨ img.mode = Mode.RGB ∨
      (img.mode = Mode.RGBA ∧ ia = true)
  · obtain ⟨ps, hreb, hiter⟩ := rebuild_roundtrip img modified ia hwf hmode hlen
    rw [hreb] at hok
    injection hok with h
    rw [← h]
    exact hiter
  · have hm : img.mode = Mode.RGBA ∧ ia = false := by
      cases hmo : img.mode <;> cases hia : ia <;> simp [hmo, hia] at hmode ⊢
    obtain ⟨hm, hia⟩ := hm
    subst hia
    cases hwh : img.width * img.height with
    | zero =>
      have hpix : img.pixels.length = 0 := by rw [hwf.1, hwh]
      have hpixnil : img.pixels = [] := List.eq_nil_of_length_eq_zero hpix
      have hstream : iter_channel_bytes img false = [] := by
        simp [iter_channel_bytes, hpixnil]
      rw [hstream] at hlen
      have hmodnil : modified = [] := List.eq_nil_of_length_eq_zero (by simpa using hlen)
      unfold channels_to_image at hok
      rw [hwh, hmodnil] at hok
      have : rebuildPixels img.mode false 0 [] = .ok [] := rfl
      rw [this] at hok
      injection hok with h
      rw [← h, hmodnil]
      simp [iter_channel_bytes]
    | succ n =>
      exfalso
      unfold channels_to_image at hok
      rw [hwh, hm] at hok
      have : ∀ e, rebuildPixel Mode.RGBA false modified = .error e → False := by
        intro e he
        simp only [rebuildPixels, he] at hok
        exact Except.noConfusion hok
      cases hmod3 : takePixel 3 modified with
      | none =>
        apply this .stopIteration
        simp [rebuildPixel, hmod3]
      | some pr =>
        apply this .nameError
        simp [rebuildPixel, hmod3]

/-- C10: whenever `embed_payload_into_image` succeeds (`lsb_count` at most
8), every channel byte of the produced stream agrees with the
corresponding input channel byte on all bits above the low `lsb_count`
bits, and therefore differs from it by at most `2^lsb_count - 1`. -/
theorem C10_embed_alters_only_low_bits (img : Img) (P : List Nat) (ia : Bool) (lsb : Nat)
    (img' : Img) (hwf : img.wf) (h1 : 1 ≤ lsb) (h8 : lsb ≤ 8)
    (hok : embed_payload_into_image img P ia lsb = .ok img') :
    List.Forall₂ (fun outB inB =>
        outB >>> lsb = inB >>> lsb ∧
        outB ≤ inB + (2 ^ lsb - 1) ∧ inB ≤ outB + (2 ^ lsb - 1))
      (iter_channel_bytes img' ia) (iter_channel_bytes img ia) := by
  simp only [embed_payload_into_image, calculate_required_bits_for_payload] at hok
  split_ifs at hok <;>
  first
    | exact Except.noConfusion hok
    | { have hiter := channels_to_image_ok_iter img _ ia img' hwf
          (embedChannels_length _ _ _ _) hok
        rw [hiter]
        exact embedChannels_forall2 lsb _ _ (bytes_to_bits_le_one _)
          (iter_channel_bytes_lt img ia hwf) }

/-- Closed witness for C10: the concrete embedding of `[171]` into the
8x5 grayscale image, with the embedded image spelled out. -/
theorem C10_embed_alters_only_low_bits_witness :
    List.Forall₂ (fun outB inB =>
        outB >>> 1 = inB >>> 1 ∧
        outB ≤ inB + (2 ^ 1 - 1) ∧ inB ≤ outB + (2 ^ 1 - 1))
      (iter_channel_bytes ⟨8, 5, Mode.L,
        List.replicate 31 [200] ++
          [[201], [201], [200], [201], [200], [201], [200], [201], [201]]⟩ false)
      (iter_channel_bytes ⟨8, 5, Mode.L, List.replicate 40 [200]⟩ false) :=
  C10_embed_alters_only_low_bits ⟨8, 5, Mode.L, List.replicate 40 [200]⟩ [171] false 1
    ⟨8, 5, Mode.L,
      List.replicate 31 [200] ++
        [[201], [201], [200], [201], [200], [201], [200], [201], [201]]⟩
    (by decide) (by decide) (by decide) (by decide)

/-- A valid Python string code point: in Unicode range and not a
surrogate (Python's UTF-8 codec refuses lone surrogates). -/
def validCp (c : Nat) : Prop := c < 1114112 ∧ (c < 55296 ∨ 57344 ≤ c)

instance (c : Nat) : Decidable (validCp c) := by
  unfold validCp; infer_instance

lemma utf8EncodeChar_lt (c : Nat) (h : c < 1114112) :
    ∀ b ∈ utf8EncodeChar c, b < 256 := by
  intro b hb
  unfold utf8EncodeChar at hb
  split_ifs at hb with h1 h2 h3 <;>
    simp only [List.mem_cons, List.not_mem_nil, or_false] at hb <;>
    rcases hb with rfl | h' <;> first | omega | (rcases h' with rfl | h'' <;> omega)

lemma utf8Decode_encodeChar (c : Nat) (h : validCp c) (rest : List Nat) :
    utf8Decode (utf8EncodeChar c ++ rest) = (utf8Decode rest).map (c :: ·) := by
  obtain ⟨hmax, hsur⟩ := h
  by_cases h1 : c < 128
  · have e : utf8EncodeChar c = [c] := by
      unfold utf8EncodeChar; rw [if_pos h1]
    rw [e, List.singleton_append]
    rw [utf8Decode]
    rw [if_pos h1]
  · by_cases h2 : c < 2048
    · have e : utf8EncodeChar c = [192 + c / 64, 128 + c % 64] := by
        unfold utf8EncodeChar; rw [if_neg h1, if_pos h2]
      rw [e]
      simp only [List.cons_append, List.nil_append]
      rw [utf8Decode]
      have hcont : utf8Cont (128 + c % 64) = true := by
        simp only [utf8Cont, Bool.and_eq_true, decide_eq_true_eq]
        constructor <;> omega
      rw [if_neg (by omega), if_neg (by omega), if_pos (by omega)]
      rw [utf8Dec2, if_pos hcont]
      rw [show utf8Val2 (192 + c / 64) (128 + c % 64) = c from by
        simp only [utf8Val2]; omega]
    · by_cases h3 : c < 65536
      · have e : utf8EncodeChar c =
            [224 + c / 4096, 128 + c / 64 % 64, 128 + c % 64] := by
          unfold utf8EncodeChar; rw [if_neg h1, if_neg h2, if_pos h3]
        rw [e]
        simp only [List.cons_append, List.nil_append]
        rw [utf8Decode]
        have hcont : (utf8Cont (128 + c / 64 % 64) && utf8Cont (128 + c % 64) &&
            utf8Ok3 (utf8Val3 (224 + c / 4096) (128 + c / 64 % 64) (128 + c % 64))) = true := by
          simp only [utf8Cont, utf8Ok3, utf8Val3, Bool.and_eq_true, Bool.or_eq_true,
            decide_eq_true_eq]
          omega
        rw [if_neg (by omega), if_neg (by omega), if_neg (by omega), if_pos (by omega)]
        rw [utf8Dec3, if_pos hcont]
        rw [show utf8Val3 (224 + c / 4096) (128 + c / 64 % 64) (128 + c % 64) = c from by
          simp only [utf8Val3]; omega]
      · have e : utf8EncodeChar c =
            [240 + c / 262144, 128 + c / 4096 % 64, 128 + c / 64 % 64, 128 + c % 64] := by
          unfold utf8EncodeChar; rw [if_neg h1, if_neg h2, if_neg h3]
        rw [e]
        simp only [List.cons_append, List.nil_append]
        rw [utf8Decode]
        have hcont : (utf8Cont (128 + c / 4096 % 64) && utf8Cont (128 + c / 64 % 64) &&
            utf8Cont (128 + c % 64) &&
            utf8Ok4 (utf8Val4 (240 + c / 262144) (128 + c / 4096 % 64) (128 + c / 64 % 64)
              (128 + c % 64))) = true := by
          simp only [utf8Cont, utf8Ok4, utf8Val4, Bool.and_eq_true, decide_eq_true_eq]
          omega
        rw [if_neg (by omega), if_neg (by omega), if_neg (by omega), if_neg (by omega),
          if_pos (by omega)]
        rw [utf8Dec4, if_pos hcont]
        rw [show utf8Val4 (240 + c / 262144) (128 + c / 4096 % 64) (128 + c / 64 % 64)
            (128 + c % 64) = c from by
          simp only [utf8Val4]; omega]

lemma utf8Decode_utf8Encode (t : List Nat) (h : ∀ c ∈ t, validCp c) :
    utf8Decode (utf8Encode t) = some t := by
  induction t with
  | nil =>
    rw [show utf8Encode [] = [] from rfl, utf8Decode]
  | cons c cs ih =>
    have e : utf8Encode (c :: cs) = utf8EncodeChar c ++ utf8Encode cs := by
      simp [utf8Encode]
    rw [e, utf8Decode_encodeChar c (h c (by simp)) _,
      ih (fun x hx => h x (by simp [hx]))]
    rfl

lemma utf8Encode_lt (t : List Nat) (h : ∀ c ∈ t, validCp c) :
    ∀ b ∈ utf8Encode t, b < 256 := by
  intro b hb
  simp only [utf8Encode, List.mem_flatMap] at hb
  obtain ⟨c, hc, hbc⟩ := hb
  exact utf8EncodeChar_lt c (h c hc).1 b hbc

lemma rotChar_valid (s : Int) (c : Nat) (h : validCp c) : validCp (rotChar s c) := by
  have h1 := Int.emod_nonneg ((c : Int) - 97 + s) (by norm_num : (26 : Int) ≠ 0)
  have h2 := Int.emod_lt_of_pos ((c : Int) - 97 + s) (by norm_num : (0 : Int) < 26)
  have h3 := Int.emod_nonneg ((c : Int) - 65 + s) (by norm_num : (26 : Int) ≠ 0)
  have h4 := Int.emod_lt_of_pos ((c : Int) - 65 + s) (by norm_num : (0 : Int) < 26)
  unfold rotChar
  split_ifs with hl hu
  · rw [pyMod26_eq]
    unfold validCp
    omega
  · rw [pyMod26_eq]
    unfold validCp
    omega
  · exact h

lemma rotate_letters_valid (t : List Nat) (s : Int) (h : ∀ c ∈ t, validCp c) :
    ∀ c ∈ rotate_letters t s, validCp c := by
  intro c hc
  obtain ⟨x, hx, rfl⟩ := List.mem_map.mp hc
  exact rotChar_valid s x (h x hx)

lemma unpack_append (salt nonce tag ct : List Nat) (hs : salt.length = 16)
    (hn : nonce.length = 12) (ht : tag.length = 16) :
    unpack_encrypted_payload (salt ++ nonce ++ tag ++ ct) = .ok (salt, nonce, tag, ct) := by
  have hA : (salt ++ nonce).length = 28 := by simp [hs, hn]
  have hB : (salt ++ nonce ++ tag).length = 44 := by simp [hs, hn, ht]
  rw [unpack_of_long _ (by simp [hs, hn, ht]; omega)]
  have e1 : (salt ++ nonce ++ tag ++ ct).take 16 = salt := by
    rw [List.append_assoc, List.append_assoc, List.take_left' hs]
  have e2 : ((salt ++ nonce ++ tag ++ ct).drop 16).take 12 = nonce := by
    rw [List.append_assoc (salt ++ nonce), List.append_assoc salt nonce,
        List.drop_left' hs, List.take_left' hn]
  have e3 : ((salt ++ nonce ++ tag ++ ct).drop 28).take 16 = tag := by
    rw [List.append_assoc (salt ++ nonce), List.drop_left' hA, List.take_left' ht]
  have e4 : (salt ++ nonce ++ tag ++ ct).drop 44 = ct := List.drop_left' hB
  rw [e1, e2, e3, e4]

lemma tag_cps_valid : (∀ c ∈ START_TAG, validCp c) ∧ (∀ c ∈ END_TAG, validCp c) := by
  decide

lemma extract_build_roundtrip (lib : CryptoLib) (t p usalt unonce : List Nat)
    (hvalid : ∀ c ∈ t, validCp c)
    (hs : usalt.length = 16) (hn : unonce.length = 12)
    (hlib : ∀ pt key nonce, (∀ b ∈ pt, b < 256) →
       lib.aesGcmDecrypt (lib.aesGcmEncrypt pt key nonce).1 key nonce
         (lib.aesGcmEncrypt pt key nonce).2 = some pt ∧
       (lib.aesGcmEncrypt pt key nonce).2.length = 16 ∧
       (∀ b ∈ (lib.aesGcmEncrypt pt key nonce).1, b < 256) ∧
       (∀ b ∈ (lib.aesGcmEncrypt pt key nonce).2, b < 256)) :
    ∃ payload, build_payload_from_text lib t p usalt unonce none = .ok payload ∧
      extract_text_from_payload lib payload p = .ok t ∧
      ((∀ b ∈ usalt, b < 256) → (∀ b ∈ unonce, b < 256) → ∀ b ∈ payload, b < 256) := by
  have htagv : ∀ c ∈ START_TAG ++ t ++ END_TAG, validCp c := by
    intro c hc
    rcases List.mem_append.mp hc with h | h
    · rcases List.mem_append.mp h with h' | h'
      · exact tag_cps_valid.1 c h'
      · exact hvalid c h'
    · exact tag_cps_valid.2 c h
  have hrotv : ∀ c ∈ rotate_letters (START_TAG ++ t ++ END_TAG) (p.length : Int),
      validCp c := rotate_letters_valid _ _ htagv
  have hptb : ∀ b ∈ text_to_bytes
      (rotate_letters (START_TAG ++ t ++ END_TAG) (p.length : Int)), b < 256 :=
    utf8Encode_lt _ hrotv
  obtain ⟨hdec, htag, hctb, htgb⟩ := hlib
    (text_to_bytes (rotate_letters (START_TAG ++ t ++ END_TAG) (p.length : Int)))
    (lib.pbkdf2Sha256 (text_to_bytes p) usalt 100000 32) unonce hptb
  refine ⟨_, build_payload_from_text_eq lib t p usalt unonce hs hn htag, ?_, ?_⟩
  · unfold extract_text_from_payload
    rw [unpack_append _ _ _ _ hs hn htag]
    simp only [derive_key_from_password, decrypt_with_aes_gcm, text_to_bytes]
    simp only [text_to_bytes] at hdec
    rw [hdec]
    simp only [bytes_to_text]
    rw [utf8Decode_utf8Encode _ hrotv]
    dsimp only
    rw [rotate_letters_inv (START_TAG ++ t ++ END_TAG) (p.length : Int)]
    rw [if_pos (by
      rw [Bool.and_eq_true, List.isPrefixOf_iff_prefix, List.isSuffixOf_iff_suffix]
      constructor
      · rw [List.append_assoc]
        exact List.prefix_append _ _
      · exact List.suffix_append _ _)]
    have hStag : START_TAG.length = 11 := rfl
    have hEtag : END_TAG.length = 9 := rfl
    have hlen1 : (START_TAG ++ t).length =
        (START_TAG ++ t ++ END_TAG).length - END_TAG.length := by
      simp only [List.length_append]
      omega
    rw [List.take_left' hlen1, List.drop_left]
  · intro hsb hnb b hb
    rcases List.mem_append.mp hb with h | h
    · rcases List.mem_append.mp h with h' | h'
      · rcases List.mem_append.mp h' with h'' | h''
        · exact hsb b h''
        · exact hnb b h''
      · exact htgb b h'
    · exact hctb b h

/-- A 10x15 RGBA test image used for the C1 counterexample. -/
def rgbaImgC1 : Img := ⟨10, 15, Mode.RGBA, List.replicate 150 [0, 0, 0, 0]⟩

set_option maxRecDepth 10000 in
/-- C1 (counterexample): with a concrete crypto backend, empty text and
password `"pw"`, the built payload has 64 bytes, so 544 bits are needed;
a 10x15 RGBA image embedded with `include_alpha=True` has 600 usable
channel bytes — sufficient capacity — yet `embed_payload_into_image`
raises `CapacityError(544, 450)` because the source computes
`available_bits` with the channel count inverted; the claim's
embed-then-recover path therefore cannot return the original text. -/
theorem C1_counterexample :
    ∃ payload,
      build_payload_from_text mockCryptoLib (strCps "") (strCps "pw")
        (List.replicate 16 3) (List.replicate 12 4) none = .ok payload ∧
      8 * (payload.length + 4) ≤ (iter_channel_bytes rgbaImgC1 true).length * 1 ∧
      embed_payload_into_image rgbaImgC1 payload true 1 = .error (.capacity 544 450) := by
  refine ⟨List.replicate 16 3 ++ List.replicate 12 4 ++ List.replicate 16 0 ++
      [60, 117, 118, 99, 116, 118, 95, 111, 117, 105, 62,
       60, 103, 112, 102, 95, 111, 117, 105, 62],
    by decide, by decide, by decide⟩

/-- C1 (amended): for every UTF-8 text `t` (valid non-surrogate code
points, accented characters included) and non-empty password `p`, with
the library's AES-GCM contract as hypotheses, the payload built by
`build_payload_from_text` is recovered exactly by
`extract_text_from_payload` (tags stripped, rotation reversed); and when
that payload is first embedded into a well-formed grayscale or RGB image
of sufficient stream capacity (matching `include_alpha` and a `lsb_count`
between 1 and 8 on both sides) and recovered with
`extract_payload_from_image`, the recovered string still equals `t`
exactly.  (On RGBA images the embedding itself fails, see the
counterexample.) -/
theorem C1_text_roundtrip (lib : CryptoLib) (t p usalt unonce : List Nat)
    (hvalid : ∀ c ∈ t, validCp c) (hpw : p ≠ [])
    (hs : usalt.length = 16) (hn : unonce.length = 12)
    (hsb : ∀ b ∈ usalt, b < 256) (hnb : ∀ b ∈ unonce, b < 256)
    (hlib : ∀ pt key nonce, (∀ b ∈ pt, b < 256) →
       lib.aesGcmDecrypt (lib.aesGcmEncrypt pt key nonce).1 key nonce
         (lib.aesGcmEncrypt pt key nonce).2 = some pt ∧
       (lib.aesGcmEncrypt pt key nonce).2.length = 16 ∧
       (∀ b ∈ (lib.aesGcmEncrypt pt key nonce).1, b < 256) ∧
       (∀ b ∈ (lib.aesGcmEncrypt pt key nonce).2, b < 256)) :
    (∃ payload, build_payload_from_text lib t p usalt unonce none = .ok payload ∧
       extract_text_from_payload lib payload p = .ok t) ∧
    (∀ (img : Img) (ia : Bool) (lsb : Nat) (payload : List Nat),
       build_payload_from_text lib t p usalt unonce none = .ok payload →
       img.wf → (img.mode = Mode.L ∨ img.mode = Mode.RGB) →
       1 ≤ lsb → lsb ≤ 8 → payload.length < 4294967292 →
       8 * (payload.length + 4) ≤ (iter_channel_bytes img ia).length * lsb →
       ∃ img', embed_payload_into_image img payload ia lsb = .ok img' ∧
         extract_payload_from_image img' ia lsb = .ok payload ∧
         extract_text_from_payload lib payload p = .ok t) := by
  obtain ⟨payload0, hb0, he0, hbytes0⟩ :=
    extract_build_roundtrip lib t p usalt unonce hvalid hs hn hlib
  refine ⟨⟨payload0, hb0, he0⟩, ?_⟩
  intro img ia lsb payload hb hwf hmode h1 h8 hplen hcap
  have hpeq : payload = payload0 := by
    rw [hb] at hb0
    exact Except.ok.inj hb0
  rw [hpeq] at hplen hcap ⊢
  obtain ⟨img', he1, he2⟩ := embed_extract_ok img payload0 ia lsb hwf hmode
    (hbytes0 hsb hnb) hplen h1 h8 hcap
  exact ⟨img', he1, he2, he0⟩

/-- Closed witness for C1's amended theorem with the concrete backend,
an accented text and password `"pw"`. -/
theorem C1_text_roundtrip_witness :
    (∃ payload, build_payload_from_text mockCryptoLib (strCps "Hola é!") (strCps "pw")
        (List.replicate 16 170) (List.replicate 12 7) none = .ok payload ∧
       extract_text_from_payload mockCryptoLib payload (strCps "pw") =
         .ok (strCps "Hola é!")) ∧
    (∀ (img : Img) (ia : Bool) (lsb : Nat) (payload : List Nat),
       build_payload_from_text mockCryptoLib (strCps "Hola é!") (strCps "pw")
         (List.replicate 16 170) (List.replicate 12 7) none = .ok payload →
       img.wf → (img.mode = Mode.L ∨ img.mode = Mode.RGB) →
       1 ≤ lsb → lsb ≤ 8 → payload.length < 4294967292 →
       8 * (payload.length + 4) ≤ (iter_channel_bytes img ia).length * lsb →
       ∃ img', embed_payload_into_image img payload ia lsb = .ok img' ∧
         extract_payload_from_image img' ia lsb = .ok payload ∧
         extract_text_from_payload mockCryptoLib payload (strCps "pw") =
           .ok (strCps "Hola é!")) :=
  C1_text_roundtrip mockCryptoLib (strCps "Hola é!") (strCps "pw")
    (List.replicate 16 170) (List.replicate 12 7)
    (by decide) (by decide) (by decide) (by decide) (by decide) (by decide)
    (by
      intro pt key nonce hpt
      refine ⟨by simp [mockCryptoLib], by simp [mockCryptoLib], ?_, ?_⟩
      · simpa [mockCryptoLib] using hpt
      · intro b hb
        simp only [mockCryptoLib] at hb
        have := List.eq_of_mem_replicate hb
        omega)

end ImageHide
